import Mathlib

/-!
# AbstractExecutor (src/ee/executors/abstractexecutor.cpp)

A shallow embedding of `AbstractExecutor::init`, `AbstractExecutor::execute_pull` and
`AbstractExecutor::clearOutputTable_pull`.

* Pointers to tables are `Option Table` (`none` is `NULL`); a `Table` carries the identity of
  the object pointed to and whether its dynamic type is `TempTable`.
* The plan node is a tree value; the executor record holds the node it is bound to, so writes
  through `m_abstractNode` are updates of that field.
* The virtual hooks of the concrete operator (`p_init`, `needsOutputTableClear`,
  `p_pre_execute_pull`, `p_next_pull`, `p_insert_output_table_pull`, `p_post_execute_pull`) are
  functions over a state `σ` owned by the concrete operator. `p_init` additionally receives the
  plan node and may rewrite it. The fields of the base class are written by the base class only.
* Every call that leaves the base class is logged as an `Event`, in program order.
* `while (true)` in `execute_pull` is run with a bound on the number of iterations; the result
  `none` means that the loop is still running when the bound is reached.
* `clearOutputTable_pull` runs on an `ExecutorTree`, the executor with the executors of the
  children of its node; `assert` is a result of its own; `detail::iterate_children_pull`, whose
  header is not among the sources, follows the spec.
* `VOLT_ERROR` and `VOLT_TRACE` only log and are left out. The child loop of `init` counts with
  an `int`; the model walks the child list itself (child counts stay below `2^31`).
-/

namespace voltdb

/-! ## Tables, plan nodes, engine -/

/-- The object behind a `Table*`: its identity, and whether `dynamic_cast<TempTable*>`
succeeds on it. -/
structure Table where
  id : Nat
  isTempTable : Bool
deriving DecidableEq, Repr

/-- The result of `dynamic_cast<TempTable*>(p)`: `NULL` stays `NULL`, a table that is not a
`TempTable` becomes `NULL`. -/
def dynamic_cast_TempTable (p : Option Table) : Option Table :=
  match p with
  | none => none
  | some t => if t.isTempTable then some t else none

/-- What the two `dynamic_cast`s on the node at lines 85-88 tell: the node is an
`AbstractScanPlanNode`, an `AbstractOperationPlanNode`, or neither. Only the first two carry a
target-table name and a target-table pointer. -/
inductive PlanNodeKind where
  | scan (targetTableName : String) (targetTable : Option Table)
  | operation (targetTableName : String) (targetTable : Option Table)
  | other
deriving DecidableEq, Repr

/-- An `AbstractPlanNode`: identifier, kind, ordered children, output table, input tables and
the text `debug()` returns. -/
inductive PlanNode where
  | mk (planNodeId : Nat) (kind : PlanNodeKind) (children : List PlanNode)
      (outputTable : Option Table) (inputTables : List Table) (debug : String)

namespace PlanNode

def getPlanNodeId : PlanNode → Nat
  | mk i _ _ _ _ _ => i

def kind : PlanNode → PlanNodeKind
  | mk _ k _ _ _ _ => k

def getChildren : PlanNode → List PlanNode
  | mk _ _ cs _ _ _ => cs

def getOutputTable : PlanNode → Option Table
  | mk _ _ _ o _ _ => o

def getInputTables : PlanNode → List Table
  | mk _ _ _ _ ins _ => ins

def debug : PlanNode → String
  | mk _ _ _ _ _ d => d

def setInputTables : PlanNode → List Table → PlanNode
  | mk i k cs o _ d, ins => mk i k cs o ins d

def setOutputTable : PlanNode → Option Table → PlanNode
  | mk i k cs _ ins d, o => mk i k cs o ins d

/-- Whether `dynamic_cast<AbstractScanPlanNode*>` succeeds. -/
def isScan (n : PlanNode) : Bool :=
  match n.kind with
  | .scan _ _ => true
  | _ => false

/-- Whether `dynamic_cast<AbstractOperationPlanNode*>` succeeds. -/
def isOperation (n : PlanNode) : Bool :=
  match n.kind with
  | .operation _ _ => true
  | _ => false

/-- The name `getTargetTableName()` returns on a scan or operation node. -/
def getTargetTableName (n : PlanNode) : Option String :=
  match n.kind with
  | .scan nm _ => some nm
  | .operation nm _ => some nm
  | .other => none

/-- The pointer `getTargetTable()` returns on a scan or operation node (`none` also for a node
that has no target table at all). -/
def getTargetTable (n : PlanNode) : Option Table :=
  match n.kind with
  | .scan _ t => t
  | .operation _ t => t
  | .other => none

/-- The call `setTargetTable(t)` on a scan or operation node. -/
def setTargetTable : PlanNode → Table → PlanNode
  | mk i (.scan nm _) cs o ins d, t => mk i (.scan nm (some t)) cs o ins d
  | mk i (.operation nm _) cs o ins d, t => mk i (.operation nm (some t)) cs o ins d
  | mk i .other cs o ins d, _ => mk i .other cs o ins d

end PlanNode

/-- The part of `VoltDBEngine` that `init` uses: `getTable(name)`, `none` when the engine has no
table of that name. -/
structure VoltDBEngine where
  getTable : String → Option Table

/-! ## Exceptions -/

/-- Modelled from the spec: the enumeration `VoltEEExceptionType` is declared in a header that
is not part of the sources; only the constant that `init` uses is named, every other value is
`otherType`. -/
inductive VoltEEExceptionType where
  | VOLT_EE_EXCEPTION_TYPE_EEEXCEPTION
  | otherType (code : Nat)
deriving DecidableEq, Repr

/-- An object thrown by operator code: the name of its dynamic type, and whether that type
derives from `std::exception`, which is what the handler `catch (exception& err)` tests. -/
structure Fault where
  kind : String
  isStdException : Bool
deriving DecidableEq, Repr

/-- What leaves `init` by `throw`: the `SerializableEEException` built at lines 131-132, or an
object thrown by `p_init` that the handler at line 127 does not match. -/
inductive Thrown where
  | serializableEEException (type : VoltEEExceptionType) (message : String)
  | uncaught (fault : Fault)
deriving DecidableEq, Repr

/-- How a call of `init` ends. -/
inductive InitResult where
  | returned (ok : Bool)
  | threw (e : Thrown)
deriving DecidableEq, Repr

/-- The characters `c_str()` exposes to `%s`: those before the first NUL. -/
def c_str (s : String) : List Char :=
  s.data.takeWhile (fun c => c != Char.ofNat 0)

/-- The text of `message` after
`snprintf(message, 128, "The Executor failed to initialize PlanNode '%s'", d.c_str())`:
at most 127 characters of the formatted text are kept (each character stands for one `char`). -/
def initFailureMessage (d : String) : String :=
  String.mk
    ((("The Executor failed to initialize PlanNode ".data ++ [Char.ofNat 39]) ++ c_str d
        ++ [Char.ofNat 39]).take 127)

/-! ## Hooks, executor, event log -/

/-- How a call of `p_init` ends, together with the plan node and the operator state it leaves
behind. -/
inductive InitHookResult (σ : Type) where
  | returned (ok : Bool) (node : PlanNode) (state : σ)
  | raised (fault : Fault) (node : PlanNode) (state : σ)

namespace InitHookResult

def node {σ : Type} : InitHookResult σ → PlanNode
  | returned _ n _ => n
  | raised _ n _ => n

def state {σ : Type} : InitHookResult σ → σ
  | returned _ _ s => s
  | raised _ _ s => s

end InitHookResult

/-- The virtual methods a concrete executor supplies. `σ` is the state of the concrete
operator, `Tuple` the type of an ordinary (non-null) `TableTuple`, `Params` stands for
`NValueArray` and `Limits` for `TempTableLimits`.

`p_next_pull` takes the current value of `status` (passed by reference) and returns the tuple
(`none` is the null tuple), the value of `status` after the call, and the new state. -/
structure Hooks (σ Tuple Params Limits : Type) where
  needsOutputTableClear : σ → Bool × σ
  p_init : PlanNode → Limits → σ → InitHookResult σ
  p_pre_execute_pull : Params → σ → Bool × σ
  p_next_pull : Params → Bool → σ → Option Tuple × Bool × σ
  p_insert_output_table_pull : Tuple → σ → Bool × σ
  p_post_execute_pull : Params → σ → Bool × σ

/-- The fields of `AbstractExecutor`, and the state of the concrete operator. -/
structure AbstractExecutor (σ : Type) where
  m_abstractNode : PlanNode
  m_tmpOutputTable : Option Table
  needs_outputtable_clear_cached : Bool
  derived : σ

/-- One call that leaves the base class, with what it was given or what it answered. -/
inductive Event (Tuple : Type) where
  | getTable (name : String)
  | needsOutputTableClear (answer : Bool)
  | p_init (node : PlanNode)
  | deleteAllTuplesNonVirtual (table : Table)
  | p_pre_execute_pull (ok : Bool)
  | p_next_pull (tuple : Option Tuple) (status : Bool)
  | p_insert_output_table_pull (tuple : Tuple) (ok : Bool)
  | p_post_execute_pull (ok : Bool)
  | deleteAllTuples (table : Table)

/-- The outcome of one method call: its result, the executor afterwards, and the log of the
calls it made. -/
structure Run (ρ σ Tuple : Type) where
  result : ρ
  exec : AbstractExecutor σ
  trace : List (Event Tuple)

/-! ## init -/

/-- Lines 63-76: walk the children in order, appending each child's output table to
`input_tables`; `none` as soon as a child has no output table (`return false`). -/
def gatherInputTables : List PlanNode → List Table → Option (List Table)
  | [], input_tables => some input_tables
  | child :: rest, input_tables =>
    match child.getOutputTable with
    | none => none
    | some table => gatherInputTables rest (input_tables ++ [table])

/-- Lines 85-120: for a scan or operation node whose target table is `NULL`, ask the engine
for the table of that name and write it back onto the node. The first component is `none`
when the engine has no such table (`return false`); the second is the log. -/
def resolveTargetTable {Tuple : Type} (engine : VoltDBEngine) (node : PlanNode) :
    Option PlanNode × List (Event Tuple) :=
  if node.isScan || node.isOperation then
    match node.getTargetTableName with
    | none => (some node, [])
    | some targetTableName =>
      match node.getTargetTable with
      | some _ => (some node, [])
      | none =>
        match engine.getTable targetTableName with
        | none => (none, [Event.getTable targetTableName])
        | some target_table =>
          (some (node.setTargetTable target_table), [Event.getTable targetTableName])
  else (some node, [])

/-- Lines 121-144 of `init`, entered once the input tables are bound and the target table is
resolved: cache the clearing policy, call `p_init`, then cache the output table. -/
def initOperator {σ Tuple Params Limits : Type} (h : Hooks σ Tuple Params Limits)
    (limits : Limits) (ex : AbstractExecutor σ) (node : PlanNode)
    (tr : List (Event Tuple)) : Run InitResult σ Tuple :=
  let policy := h.needsOutputTableClear ex.derived
  let tr1 := tr ++ [Event.needsOutputTableClear policy.1, Event.p_init node]
  match h.p_init node limits policy.2 with
  | .returned false node1 s =>
    ⟨.returned false, ⟨node1, ex.m_tmpOutputTable, policy.1, s⟩, tr1⟩
  | .raised fault node1 s =>
    if fault.isStdException then
      ⟨.threw (.serializableEEException .VOLT_EE_EXCEPTION_TYPE_EEEXCEPTION
          (initFailureMessage node1.debug)),
        ⟨node1, ex.m_tmpOutputTable, policy.1, s⟩, tr1⟩
    else
      ⟨.threw (.uncaught fault), ⟨node1, ex.m_tmpOutputTable, policy.1, s⟩, tr1⟩
  | .returned true node1 s =>
    let tmp_output_table_base := node1.getOutputTable
    let m_tmpOutputTable := dynamic_cast_TempTable tmp_output_table_base
    if !policy.1 then
      ⟨.returned true, ⟨node1, none, policy.1, s⟩, tr1⟩
    else
      ⟨.returned true, ⟨node1, m_tmpOutputTable, policy.1, s⟩, tr1⟩

/-- The method `AbstractExecutor::init(engine, limits)`. -/
def AbstractExecutor.init {σ Tuple Params Limits : Type} (h : Hooks σ Tuple Params Limits)
    (engine : VoltDBEngine) (limits : Limits) (ex : AbstractExecutor σ) :
    Run InitResult σ Tuple :=
  match gatherInputTables ex.m_abstractNode.getChildren [] with
  | none => ⟨.returned false, ex, []⟩
  | some input_tables =>
    let node1 := ex.m_abstractNode.setInputTables input_tables
    match resolveTargetTable engine node1 with
    | (none, tr) =>
      ⟨.returned false,
        ⟨node1, ex.m_tmpOutputTable, ex.needs_outputtable_clear_cached, ex.derived⟩, tr⟩
    | (some node2, tr) => initOperator h limits ex node2 tr

/-! ## execute_pull -/

/-- Lines 173-184: the loop `while (true)`, at most `fuel` iterations of it, entered with the
current `status`. The first component is the value of `status` at `break`, or `none` when the
loop has not reached `break` within `fuel` iterations. -/
def pullLoop {σ Tuple Params Limits : Type} (h : Hooks σ Tuple Params Limits)
    (params : Params) : Nat → Bool → σ → Option Bool × σ × List (Event Tuple)
  | 0, _, s => (none, s, [])
  | fuel + 1, status, s =>
    let produced := h.p_next_pull params status s
    match produced.1 with
    | none => (some produced.2.1, produced.2.2, [Event.p_next_pull none produced.2.1])
    | some tuple =>
      if produced.2.1 == false then
        (some produced.2.1, produced.2.2, [Event.p_next_pull (some tuple) produced.2.1])
      else
        let inserted := h.p_insert_output_table_pull tuple produced.2.2
        let rest := pullLoop h params fuel inserted.1 inserted.2
        (rest.1, rest.2.1,
          Event.p_next_pull (some tuple) produced.2.1
            :: Event.p_insert_output_table_pull tuple inserted.1 :: rest.2.2)

/-- The method `AbstractExecutor::execute_pull(params)`, with at most `fuel` iterations of its
loop. The result is `none` when the loop is still running after `fuel` iterations. -/
def AbstractExecutor.execute_pull {σ Tuple Params Limits : Type}
    (h : Hooks σ Tuple Params Limits) (params : Params) (fuel : Nat)
    (ex : AbstractExecutor σ) : Run (Option Bool) σ Tuple :=
  let cleared : List (Event Tuple) :=
    match ex.m_tmpOutputTable with
    | some t => [Event.deleteAllTuplesNonVirtual t]
    | none => []
  let pre := h.p_pre_execute_pull params ex.derived
  if pre.1 != true then
    ⟨some false, ⟨ex.m_abstractNode, ex.m_tmpOutputTable, ex.needs_outputtable_clear_cached,
      pre.2⟩, cleared ++ [Event.p_pre_execute_pull pre.1]⟩
  else
    let loop := pullLoop h params fuel true pre.2
    match loop.1 with
    | none =>
      ⟨none, ⟨ex.m_abstractNode, ex.m_tmpOutputTable, ex.needs_outputtable_clear_cached,
        loop.2.1⟩, cleared ++ [Event.p_pre_execute_pull pre.1] ++ loop.2.2⟩
    | some status =>
      if status then
        let post := h.p_post_execute_pull params loop.2.1
        ⟨some post.1, ⟨ex.m_abstractNode, ex.m_tmpOutputTable,
          ex.needs_outputtable_clear_cached, post.2⟩,
          cleared ++ [Event.p_pre_execute_pull pre.1] ++ loop.2.2
            ++ [Event.p_post_execute_pull post.1]⟩
      else
        ⟨some status, ⟨ex.m_abstractNode, ex.m_tmpOutputTable,
          ex.needs_outputtable_clear_cached, loop.2.1⟩,
          cleared ++ [Event.p_pre_execute_pull pre.1] ++ loop.2.2⟩

/-! ## clearOutputTable_pull -/

/-- How a call of `clearOutputTable_pull` ends: it returns, or `assert(cleanUpTable)` fails. -/
inductive ClearResult where
  | returned (ok : Bool)
  | assertionFailed
deriving DecidableEq, Repr

/-- Lines 201-207 of `clearOutputTable_pull`, the part for the executor's own node: ask
`this->needsOutputTableClear()`; if it answers `true`, take the output table of the plan node,
assert that it is not `NULL`, and call `deleteAllTuples(false)` on it. -/
def clearOwnOutputTable {σ Tuple Params Limits : Type} (h : Hooks σ Tuple Params Limits)
    (ex : AbstractExecutor σ) : Run ClearResult σ Tuple :=
  let policy := h.needsOutputTableClear ex.derived
  let ex1 : AbstractExecutor σ :=
    ⟨ex.m_abstractNode, ex.m_tmpOutputTable, ex.needs_outputtable_clear_cached, policy.2⟩
  if policy.1 then
    match ex.m_abstractNode.getOutputTable with
    | none => ⟨.assertionFailed, ex1, [Event.needsOutputTableClear policy.1]⟩
    | some cleanUpTable =>
      ⟨.returned true, ex1,
        [Event.needsOutputTableClear policy.1, Event.deleteAllTuples cleanUpTable]⟩
  else ⟨.returned true, ex1, [Event.needsOutputTableClear policy.1]⟩

/-- An executor together with the executors of the children of its plan node, each with the
hooks of its own concrete operator: what `node->getChildren()[i]->getExecutor()` reaches. -/
inductive ExecutorTree (σ Tuple Params Limits : Type) where
  | mk (hooks : Hooks σ Tuple Params Limits) (executor : AbstractExecutor σ)
      (children : List (ExecutorTree σ Tuple Params Limits))

/-- The outcome of `clearOutputTable_pull` on a tree: the result, the tree afterwards, and the
log of calls, each with the identifier of the plan node whose executor made it. -/
structure ClearRun (σ Tuple Params Limits : Type) where
  result : ClearResult
  tree : ExecutorTree σ Tuple Params Limits
  trace : List (Nat × Event Tuple)

mutual
/-- The method `AbstractExecutor::clearOutputTable_pull(params)`: first
`iterate_children_pull`, then the part for the own node. -/
def clearOutputTable_pull {σ Tuple Params Limits : Type} (params : Params) :
    ExecutorTree σ Tuple Params Limits → ClearRun σ Tuple Params Limits
  | .mk h ex children =>
    let below := iterate_children_pull params children
    if below.1 then
      let own := clearOwnOutputTable h ex
      ⟨own.result, .mk h own.exec below.2.1,
        below.2.2 ++ own.trace.map (fun e => (ex.m_abstractNode.getPlanNodeId, e))⟩
    else ⟨.assertionFailed, .mk h ex below.2.1, below.2.2⟩
/-- Modelled from the spec: `detail::iterate_children_pull(m, node, params)` is declared in a
header that is not part of the sources. Following section 4.3 of the spec ("first apply the
same clearing operation to every child") it calls the method `m`, here
`clearOutputTable_pull`, on the executor of every child, in child order, and ignores what the
calls return. The first component is `false` when an assertion failed in a child, which ends
the traversal. -/
def iterate_children_pull {σ Tuple Params Limits : Type} (params : Params) :
    List (ExecutorTree σ Tuple Params Limits) →
      Bool × List (ExecutorTree σ Tuple Params Limits) × List (Nat × Event Tuple)
  | [] => (true, [], [])
  | child :: rest =>
    let first := clearOutputTable_pull params child
    match first.result with
    | .assertionFailed => (false, first.tree :: rest, first.trace)
    | .returned _ =>
      let others := iterate_children_pull params rest
      (others.1, first.tree :: others.2.1, first.trace ++ others.2.2)
end

/-! ## Reading the event log -/

/-- The answers of the production hook, in call order: the tuple (`none` for the null tuple)
and the value of `status` after the call. -/
def producedAnswers {Tuple : Type} : List (Event Tuple) → List (Option Tuple × Bool)
  | [] => []
  | Event.p_next_pull tuple status :: rest => (tuple, status) :: producedAnswers rest
  | _ :: rest => producedAnswers rest

/-- The tuples handed to the insert hook, in call order. -/
def insertedTuples {Tuple : Type} : List (Event Tuple) → List Tuple
  | [] => []
  | Event.p_insert_output_table_pull tuple _ :: rest => tuple :: insertedTuples rest
  | _ :: rest => insertedTuples rest

/-- The answers of the post-execution hook, in call order. -/
def postAnswers {Tuple : Type} : List (Event Tuple) → List Bool
  | [] => []
  | Event.p_post_execute_pull ok :: rest => ok :: postAnswers rest
  | _ :: rest => postAnswers rest

/-- The events of a loop that yields the tuples `ts`, inserts each of them with success, and
then meets the sentinel. -/
def successfulLoopEvents {Tuple : Type} : List Tuple → List (Event Tuple)
  | [] => [Event.p_next_pull none true]
  | t :: ts =>
    Event.p_next_pull (some t) true :: Event.p_insert_output_table_pull t true
      :: successfulLoopEvents ts

/-- Entered in state `s`, the production hook yields the ordinary tuples `ts`, each with
success status, every one of them is inserted with success, and the production hook then
answers with the end-of-stream sentinel and success status, leaving the state `s'`. -/
def yieldsThenEnds {σ Tuple Params Limits : Type} (h : Hooks σ Tuple Params Limits)
    (params : Params) : List Tuple → σ → σ → Prop
  | [], s, s' => h.p_next_pull params true s = (none, true, s')
  | t :: ts, s, s' =>
    (h.p_next_pull params true s).1 = some t
      ∧ (h.p_next_pull params true s).2.1 = true
      ∧ (h.p_insert_output_table_pull t (h.p_next_pull params true s).2.2).1 = true
      ∧ yieldsThenEnds h params ts
          (h.p_insert_output_table_pull t (h.p_next_pull params true s).2.2).2 s'

/-- The names `init` asked the engine for, in call order. -/
def tableLookups {Tuple : Type} : List (Event Tuple) → List String
  | [] => []
  | Event.getTable name :: rest => name :: tableLookups rest
  | _ :: rest => tableLookups rest

/-- The answers of the clearing policy `needsOutputTableClear`, one per evaluation. -/
def policyAnswers {Tuple : Type} : List (Event Tuple) → List Bool
  | [] => []
  | Event.needsOutputTableClear answer :: rest => answer :: policyAnswers rest
  | _ :: rest => policyAnswers rest

/-- The plan nodes handed to `p_init`, one per call. -/
def initHookCalls {Tuple : Type} : List (Event Tuple) → List PlanNode
  | [] => []
  | Event.p_init node :: rest => node :: initHookCalls rest
  | _ :: rest => initHookCalls rest

/-- The tables cleared through `deleteAllTuplesNonVirtual`, in call order. -/
def clearedTables {Tuple : Type} : List (Event Tuple) → List Table
  | [] => []
  | Event.deleteAllTuplesNonVirtual table :: rest => table :: clearedTables rest
  | _ :: rest => clearedTables rest

/-- The tables cleared through `deleteAllTuples`, in call order. -/
def bulkClearedTables {Tuple : Type} : List (Event Tuple) → List Table
  | [] => []
  | Event.deleteAllTuples table :: rest => table :: bulkClearedTables rest
  | _ :: rest => bulkClearedTables rest

mutual
/-- The nodes of an executor tree, every node after all the nodes of its subtrees, the
subtrees in child order. -/
def postOrder {σ Tuple Params Limits : Type} :
    ExecutorTree σ Tuple Params Limits → List (Hooks σ Tuple Params Limits × AbstractExecutor σ)
  | .mk h ex children => postOrderList children ++ [(h, ex)]
/-- The post-order listings of a list of trees, one after the other. -/
def postOrderList {σ Tuple Params Limits : Type} :
    List (ExecutorTree σ Tuple Params Limits) →
      List (Hooks σ Tuple Params Limits × AbstractExecutor σ)
  | [] => []
  | child :: rest => postOrder child ++ postOrderList rest
end

/-- The clearing step on one node as the claim words it, with the policy asked at that moment:
one evaluation of the policy of the node's operator, followed by one bulk clear of the node's
output table exactly when the answer is `true`. -/
def clearingStep {σ Tuple Params Limits : Type}
    (n : Hooks σ Tuple Params Limits × AbstractExecutor σ) : List (Nat × Event Tuple) :=
  (n.2.m_abstractNode.getPlanNodeId,
      Event.needsOutputTableClear (n.1.needsOutputTableClear n.2.derived).1)
    :: (if (n.1.needsOutputTableClear n.2.derived).1 then
          match n.2.m_abstractNode.getOutputTable with
          | some t => [(n.2.m_abstractNode.getPlanNodeId, Event.deleteAllTuples t)]
          | none => []
        else [])

/-- The text `init` formats into `message`, before it is cut to the size of the buffer. -/
def formattedInitFailure (d : String) : List Char :=
  ("The Executor failed to initialize PlanNode ".data ++ [Char.ofNat 39]) ++ d.data
    ++ [Char.ofNat 39]

/-- The events of a loop in which the production hook returns the tuples of `steps`, each
handed to the insert hook that gives the paired answer, and then the answer `stop`. -/
def loopEvents {Tuple : Type} : List (Tuple × Bool) → Option Tuple × Bool → List (Event Tuple)
  | [], stop => [Event.p_next_pull stop.1 stop.2]
  | (t, ok) :: rest, stop =>
    Event.p_next_pull (some t) true :: Event.p_insert_output_table_pull t ok
      :: loopEvents rest stop

/-- The node as the claims describe it once binding has succeeded, stated without `init`: its
input tables are the output tables of its children, and a scan or operation node whose
target table was unset carries the engine's table of its target-table name. -/
def boundNode (engine : VoltDBEngine) (node : PlanNode) : PlanNode :=
  match node.getTargetTable, node.getTargetTableName with
  | none, some name =>
    match engine.getTable name with
    | some t =>
      (node.setInputTables (node.getChildren.filterMap PlanNode.getOutputTable)).setTargetTable t
    | none => node.setInputTables (node.getChildren.filterMap PlanNode.getOutputTable)
  | _, _ => node.setInputTables (node.getChildren.filterMap PlanNode.getOutputTable)

/-! ## Sample operators and plans -/

/-- A persistent table the sample engine knows as `T`. -/
def tableT : Table := ⟨1, false⟩

/-- The transient output tables of two initialised children. -/
def outputA : Table := ⟨10, true⟩

def outputB : Table := ⟨11, true⟩

/-- An engine whose only table is `T`. -/
def sampleEngine : VoltDBEngine := ⟨fun name => if name = "T" then some tableT else none⟩

/-- A scan node over the table named `name`, without children, target not yet resolved. -/
def scanNode (name : String) : PlanNode :=
  PlanNode.mk 1 (.scan name none) [] none [] "scan"

/-- A scan node whose target table is already set; the engine does not know its name. -/
def presetScanNode : PlanNode :=
  PlanNode.mk 1 (.scan "gone" (some tableT)) [] none [] "scan"

/-- A join node over two initialised children with the outputs `outputA` and `outputB`. -/
def joinNode : PlanNode :=
  PlanNode.mk 3 .other
    [PlanNode.mk 1 (.scan "A" (some ⟨2, false⟩)) [] (some outputA) [] "scan A",
     PlanNode.mk 2 (.scan "B" (some ⟨3, false⟩)) [] (some outputB) [] "scan B"]
    none [] "join"

/-- A scan node over `T` whose only child has not been initialised (no output table). -/
def scanOverUnboundChild : PlanNode :=
  PlanNode.mk 2 (.scan "T" none) [PlanNode.mk 1 .other [] none [] "child"] none [] "scan"

/-- An executor freshly bound to `node`: nothing cached yet. -/
def freshExecutor (node : PlanNode) : AbstractExecutor Unit :=
  ⟨node, none, false, ()⟩

/-- An operator whose `p_init` creates the transient output table 100 on the node and
succeeds; its output must be cleared. -/
def materializingHooks : Hooks Unit Nat Unit Unit where
  needsOutputTableClear := fun s => (true, s)
  p_init := fun n _ s => .returned true (n.setOutputTable (some ⟨100, true⟩)) s
  p_pre_execute_pull := fun _ s => (true, s)
  p_next_pull := fun _ status s => (none, status, s)
  p_insert_output_table_pull := fun _ s => (true, s)
  p_post_execute_pull := fun _ s => (true, s)

/-- An operator whose `p_init` returns `false`. -/
def decliningHooks : Hooks Unit Nat Unit Unit where
  needsOutputTableClear := fun s => (true, s)
  p_init := fun n _ s => .returned false n s
  p_pre_execute_pull := fun _ s => (true, s)
  p_next_pull := fun _ status s => (none, status, s)
  p_insert_output_table_pull := fun _ s => (true, s)
  p_post_execute_pull := fun _ s => (true, s)

/-- An operator whose `p_init` throws `fault`. -/
def throwingHooks (fault : Fault) : Hooks Unit Nat Unit Unit where
  needsOutputTableClear := fun s => (true, s)
  p_init := fun n _ s => .raised fault n s
  p_pre_execute_pull := fun _ s => (true, s)
  p_next_pull := fun _ status s => (none, status, s)
  p_insert_output_table_pull := fun _ s => (true, s)
  p_post_execute_pull := fun _ s => (true, s)


/-- An executor bound to a leaf node that is neither scan nor operation, with no cached
table, holding the operator state `s`. -/
def leafExecutor {σ : Type} (s : σ) : AbstractExecutor σ :=
  ⟨PlanNode.mk 1 .other [] none [] "leaf", none, false, s⟩

/-- An operator whose state counts the production calls made so far. It produces the tuple
`10 + s` on every call and leaves `status` as it finds it; its output refuses every tuple. -/
def refusingOutputHooks : Hooks Nat Nat Unit Unit where
  needsOutputTableClear := fun s => (true, s)
  p_init := fun n _ s => .returned true n s
  p_pre_execute_pull := fun _ s => (true, s)
  p_next_pull := fun _ status s => (some (10 + s), status, s + 1)
  p_insert_output_table_pull := fun _ s => (false, s)
  p_post_execute_pull := fun _ s => (true, s)

/-- An operator whose state counts the production calls made so far. It produces one tuple
and then the sentinel, and writes `status = true` on every call; its output refuses every
tuple. -/
def statusResettingHooks : Hooks Nat Nat Unit Unit where
  needsOutputTableClear := fun s => (true, s)
  p_init := fun n _ s => .returned true n s
  p_pre_execute_pull := fun _ s => (true, s)
  p_next_pull := fun _ _ s => (if s = 0 then some 10 else none, true, s + 1)
  p_insert_output_table_pull := fun _ s => (false, s)
  p_post_execute_pull := fun _ s => (true, s)

/-- An operator whose state is the list of tuples still to produce; production pops the head
and leaves `status` as it finds it, insertion and the other hooks succeed. -/
def listHooks : Hooks (List Nat) Nat Unit Unit where
  needsOutputTableClear := fun s => (true, s)
  p_init := fun n _ s => .returned true n s
  p_pre_execute_pull := fun _ s => (true, s)
  p_next_pull := fun _ status s =>
    match s with
    | [] => (none, status, [])
    | t :: rest => (some t, status, rest)
  p_insert_output_table_pull := fun _ s => (true, s)
  p_post_execute_pull := fun _ s => (true, s)

/-- An operator whose output is never to be cleared; its `p_init` creates the transient
output table 100 on the node. -/
def passThroughHooks : Hooks Unit Nat Unit Unit where
  needsOutputTableClear := fun s => (false, s)
  p_init := fun n _ s => .returned true (n.setOutputTable (some ⟨100, true⟩)) s
  p_pre_execute_pull := fun _ s => (true, s)
  p_next_pull := fun _ status s => (none, status, s)
  p_insert_output_table_pull := fun _ s => (true, s)
  p_post_execute_pull := fun _ s => (true, s)

/-- An operator whose output is to be cleared, but whose `p_init` succeeds without creating
an output table. -/
def bareHooks : Hooks Unit Nat Unit Unit where
  needsOutputTableClear := fun s => (true, s)
  p_init := fun n _ s => .returned true n s
  p_pre_execute_pull := fun _ s => (true, s)
  p_next_pull := fun _ status s => (none, status, s)
  p_insert_output_table_pull := fun _ s => (true, s)
  p_post_execute_pull := fun _ s => (true, s)

/-- An operator whose output is to be cleared and whose `p_init` puts the persistent table
`tableT`, which is not a `TempTable`, on the node as output table. -/
def persistentOutputHooks : Hooks Unit Nat Unit Unit where
  needsOutputTableClear := fun s => (true, s)
  p_init := fun n _ s => .returned true (n.setOutputTable (some tableT)) s
  p_pre_execute_pull := fun _ s => (true, s)
  p_next_pull := fun _ status s => (none, status, s)
  p_insert_output_table_pull := fun _ s => (true, s)
  p_post_execute_pull := fun _ s => (true, s)

/-- An operator whose state tells whether `p_init` has run, and whose clearing policy
answers with that state: `false` before `p_init`, `true` after it. Its `p_init` creates the
transient output table 100 on the node. -/
def latePolicyHooks : Hooks Bool Nat Unit Unit where
  needsOutputTableClear := fun s => (s, s)
  p_init := fun n _ _ => .returned true (n.setOutputTable (some ⟨100, true⟩)) true
  p_pre_execute_pull := fun _ s => (true, s)
  p_next_pull := fun _ status s => (none, status, s)
  p_insert_output_table_pull := fun _ s => (true, s)
  p_post_execute_pull := fun _ s => (true, s)

/-- An executor of the late-policy operator, freshly bound to the scan over `T`; `p_init`
has not run yet. -/
def lateExecutor : AbstractExecutor Bool :=
  ⟨scanNode "T", none, false, false⟩

/-- An operator whose pre-execution hook fails. -/
def failingPreHooks : Hooks Unit Nat Unit Unit where
  needsOutputTableClear := fun s => (true, s)
  p_init := fun n _ s => .returned true n s
  p_pre_execute_pull := fun _ s => (false, s)
  p_next_pull := fun _ status s => (none, status, s)
  p_insert_output_table_pull := fun _ s => (true, s)
  p_post_execute_pull := fun _ s => (true, s)

/-- An executor bound to the scan over `T` that already caches the transient table 55 and
the flag `false`, as a call of `init` finds it. -/
def staleExecutor : AbstractExecutor Unit :=
  ⟨scanNode "T", some ⟨55, true⟩, false, ()⟩

/-- A leaf node whose `debug()` text is 200 characters long. -/
def longDebugNode : PlanNode :=
  PlanNode.mk 1 .other [] none [] (String.mk (List.replicate 200 (Char.ofNat 97)))

/-- A join executor over two scan executors, all three initialised by `materializingHooks`
except that the second scan belongs to an operator that is never cleared. -/
def sampleTree : ExecutorTree Unit Nat Unit Unit :=
  .mk materializingHooks
    ⟨PlanNode.mk 3 .other [] (some ⟨102, true⟩) [outputA, outputB] "join",
      some ⟨102, true⟩, true, ()⟩
    [.mk materializingHooks
        ⟨PlanNode.mk 1 (.scan "A" (some ⟨2, false⟩)) [] (some outputA) [] "scan A",
          some outputA, true, ()⟩ [],
     .mk passThroughHooks
        ⟨PlanNode.mk 2 (.scan "B" (some ⟨3, false⟩)) [] (some outputB) [] "scan B",
          none, false, ()⟩ []]

/-! ## Lemmas on the event log -/

section PullLemmas

variable {σ Tuple Params Limits : Type}

theorem producedAnswers_append (a b : List (Event Tuple)) :
    producedAnswers (a ++ b) = producedAnswers a ++ producedAnswers b := by
  induction a with
  | nil => rfl
  | cons e rest ih => cases e <;> simp [producedAnswers, ih]

theorem insertedTuples_append (a b : List (Event Tuple)) :
    insertedTuples (a ++ b) = insertedTuples a ++ insertedTuples b := by
  induction a with
  | nil => rfl
  | cons e rest ih => cases e <;> simp [insertedTuples, ih]

theorem postAnswers_append (a b : List (Event Tuple)) :
    postAnswers (a ++ b) = postAnswers a ++ postAnswers b := by
  induction a with
  | nil => rfl
  | cons e rest ih => cases e <;> simp [postAnswers, ih]

theorem pullLoop_sentinel (h : Hooks σ Tuple Params Limits) (params : Params) (fuel : Nat)
    (status : Bool) (s : σ) (hnone : (h.p_next_pull params status s).1 = none) :
    pullLoop h params (fuel + 1) status s
      = (some (h.p_next_pull params status s).2.1, (h.p_next_pull params status s).2.2,
          [Event.p_next_pull none (h.p_next_pull params status s).2.1]) := by
  simp only [pullLoop, hnone]

theorem pullLoop_failed (h : Hooks σ Tuple Params Limits) (params : Params) (fuel : Nat)
    (status : Bool) (s : σ) (t : Tuple) (hsome : (h.p_next_pull params status s).1 = some t)
    (hst : (h.p_next_pull params status s).2.1 = false) :
    pullLoop h params (fuel + 1) status s
      = (some false, (h.p_next_pull params status s).2.2,
          [Event.p_next_pull (some t) false]) := by
  simp [pullLoop, hsome, hst]

theorem pullLoop_ordinary (h : Hooks σ Tuple Params Limits) (params : Params) (fuel : Nat)
    (status : Bool) (s : σ) (t : Tuple) (hsome : (h.p_next_pull params status s).1 = some t)
    (hst : (h.p_next_pull params status s).2.1 = true) :
    pullLoop h params (fuel + 1) status s
      = ((pullLoop h params fuel
            (h.p_insert_output_table_pull t (h.p_next_pull params status s).2.2).1
            (h.p_insert_output_table_pull t (h.p_next_pull params status s).2.2).2).1,
         (pullLoop h params fuel
            (h.p_insert_output_table_pull t (h.p_next_pull params status s).2.2).1
            (h.p_insert_output_table_pull t (h.p_next_pull params status s).2.2).2).2.1,
         Event.p_next_pull (some t) true
           :: Event.p_insert_output_table_pull t
                (h.p_insert_output_table_pull t (h.p_next_pull params status s).2.2).1
           :: (pullLoop h params fuel
                (h.p_insert_output_table_pull t (h.p_next_pull params status s).2.2).1
                (h.p_insert_output_table_pull t (h.p_next_pull params status s).2.2).2).2.2) := by
  simp [pullLoop, hsome, hst]

theorem producedAnswers_successfulLoopEvents (ts : List Tuple) :
    (producedAnswers (successfulLoopEvents ts)).length = ts.length + 1 := by
  induction ts with
  | nil => rfl
  | cons t rest ih => simp [successfulLoopEvents, producedAnswers, ih]

theorem insertedTuples_successfulLoopEvents (ts : List Tuple) :
    insertedTuples (successfulLoopEvents ts) = ts := by
  induction ts with
  | nil => rfl
  | cons t rest ih => simp [successfulLoopEvents, insertedTuples, ih]

theorem postAnswers_successfulLoopEvents (ts : List Tuple) :
    postAnswers (successfulLoopEvents ts) = [] := by
  induction ts with
  | nil => rfl
  | cons t rest ih => simp [successfulLoopEvents, postAnswers, ih]

/-- A production hook that yields `ts` and then the sentinel drives the loop to `break` with
`status` true, within `ts.length + 1` iterations. -/
theorem pullLoop_of_yieldsThenEnds (h : Hooks σ Tuple Params Limits) (params : Params)
    (ts : List Tuple) :
    ∀ (fuel : Nat) (s s' : σ), yieldsThenEnds h params ts s s' → ts.length < fuel →
      pullLoop h params fuel true s = (some true, s', successfulLoopEvents ts) := by
  induction ts with
  | nil =>
    intro fuel s s' hrun hfuel
    obtain ⟨n, rfl⟩ : ∃ n, fuel = n + 1 := ⟨fuel - 1, by simp at hfuel; omega⟩
    simp only [yieldsThenEnds] at hrun
    rw [pullLoop_sentinel h params n true s (by rw [hrun])]
    simp [hrun, successfulLoopEvents]
  | cons t rest ih =>
    intro fuel s s' hrun hfuel
    obtain ⟨n, rfl⟩ : ∃ n, fuel = n + 1 := ⟨fuel - 1, by simp at hfuel; omega⟩
    obtain ⟨htuple, hst, hins, hrest⟩ := hrun
    rw [pullLoop_ordinary h params n true s t htuple hst, hins]
    have hlen : rest.length < n := by simp at hfuel; omega
    rw [ih n _ s' hrest hlen]
    simp [successfulLoopEvents]

theorem postAnswers_loopEvents (steps : List (Tuple × Bool)) (stop : Option Tuple × Bool) :
    postAnswers (loopEvents steps stop) = [] := by
  induction steps with
  | nil => rfl
  | cons p rest ih =>
    obtain ⟨t, ok⟩ := p
    simp [loopEvents, postAnswers, ih]

theorem policyAnswers_append (a b : List (Event Tuple)) :
    policyAnswers (a ++ b) = policyAnswers a ++ policyAnswers b := by
  induction a with
  | nil => rfl
  | cons e rest ih => cases e <;> simp [policyAnswers, ih]

theorem clearedTables_append (a b : List (Event Tuple)) :
    clearedTables (a ++ b) = clearedTables a ++ clearedTables b := by
  induction a with
  | nil => rfl
  | cons e rest ih => cases e <;> simp [clearedTables, ih]

/-- The loop neither asks the clearing policy nor clears a table. -/
theorem pullLoop_calls_no_clearing (h : Hooks σ Tuple Params Limits) (params : Params)
    (fuel : Nat) :
    ∀ (status : Bool) (s : σ),
      policyAnswers (pullLoop h params fuel status s).2.2 = []
        ∧ clearedTables (pullLoop h params fuel status s).2.2 = [] := by
  induction fuel with
  | zero => intro status s; exact ⟨rfl, rfl⟩
  | succ n ih =>
    intro status s
    cases htuple : (h.p_next_pull params status s).1 with
    | none =>
      rw [pullLoop_sentinel h params n status s htuple]
      exact ⟨rfl, rfl⟩
    | some t =>
      cases hst : (h.p_next_pull params status s).2.1 with
      | false =>
        rw [pullLoop_failed h params n status s t htuple hst]
        exact ⟨rfl, rfl⟩
      | true =>
        rw [pullLoop_ordinary h params n status s t htuple hst]
        have key := ih (h.p_insert_output_table_pull t (h.p_next_pull params status s).2.2).1
          (h.p_insert_output_table_pull t (h.p_next_pull params status s).2.2).2
        simpa [policyAnswers, clearedTables] using key

/-- The log of `execute_pull`: the clearing of the cached table (if one is cached), the
pre-execution call, and, when that call succeeded, the log of the loop and the post-execution
call (if the loop ended with `status` true). -/
theorem execute_pull_trace (h : Hooks σ Tuple Params Limits) (params : Params)
    (fuel : Nat) (ex : AbstractExecutor σ) :
    (ex.execute_pull h params fuel).trace
      = (match ex.m_tmpOutputTable with
          | some t => [Event.deleteAllTuplesNonVirtual t]
          | none => [])
        ++ [Event.p_pre_execute_pull (h.p_pre_execute_pull params ex.derived).1]
        ++ (if (h.p_pre_execute_pull params ex.derived).1 = true then
              (pullLoop h params fuel true (h.p_pre_execute_pull params ex.derived).2).2.2
                ++ (if (pullLoop h params fuel true
                      (h.p_pre_execute_pull params ex.derived).2).1 = some true then
                    [Event.p_post_execute_pull (h.p_post_execute_pull params
                      (pullLoop h params fuel true
                        (h.p_pre_execute_pull params ex.derived).2).2.1).1]
                  else [])
            else []) := by
  unfold AbstractExecutor.execute_pull
  cases hpre : (h.p_pre_execute_pull params ex.derived).1 with
  | false => simp [hpre]
  | true =>
    cases hloop : (pullLoop h params fuel true (h.p_pre_execute_pull params ex.derived).2).1 with
    | none => simp [hpre, hloop]
    | some status => cases status <;> simp [hpre, hloop]

/-- `execute_pull` clears the cached table, if one is cached, and no other table. -/
theorem execute_pull_clearedTables (h : Hooks σ Tuple Params Limits) (params : Params)
    (fuel : Nat) (ex : AbstractExecutor σ) :
    clearedTables (ex.execute_pull h params fuel).trace = ex.m_tmpOutputTable.toList := by
  rw [execute_pull_trace]
  have hloop := (pullLoop_calls_no_clearing h params fuel true
    (h.p_pre_execute_pull params ex.derived).2).2
  cases ex.m_tmpOutputTable <;>
    (simp only [clearedTables_append, clearedTables]
     split <;> [split; skip] <;> simp [clearedTables_append, clearedTables, hloop])

/-- `execute_pull` never asks the clearing policy. -/
theorem execute_pull_policyAnswers (h : Hooks σ Tuple Params Limits) (params : Params)
    (fuel : Nat) (ex : AbstractExecutor σ) :
    policyAnswers (ex.execute_pull h params fuel).trace = [] := by
  rw [execute_pull_trace]
  have hloop := (pullLoop_calls_no_clearing h params fuel true
    (h.p_pre_execute_pull params ex.derived).2).1
  cases ex.m_tmpOutputTable <;>
    (simp only [policyAnswers_append, policyAnswers]
     split <;> [split; skip] <;> simp [policyAnswers_append, policyAnswers, hloop])

/-- `execute_pull` leaves the plan node and the fields cached by `init` as they are. -/
theorem execute_pull_frame (h : Hooks σ Tuple Params Limits) (params : Params)
    (fuel : Nat) (ex : AbstractExecutor σ) :
    (ex.execute_pull h params fuel).exec.m_abstractNode = ex.m_abstractNode
      ∧ (ex.execute_pull h params fuel).exec.m_tmpOutputTable = ex.m_tmpOutputTable
      ∧ (ex.execute_pull h params fuel).exec.needs_outputtable_clear_cached
          = ex.needs_outputtable_clear_cached := by
  unfold AbstractExecutor.execute_pull
  cases hpre : (h.p_pre_execute_pull params ex.derived).1 with
  | false => simp [hpre]
  | true =>
    cases hloop : (pullLoop h params fuel true (h.p_pre_execute_pull params ex.derived).2).1 with
    | none => simp [hpre, hloop]
    | some status => cases status <;> simp [hpre, hloop]

end PullLemmas

/-! ## Lemmas on init -/

section InitLemmas

variable {σ Tuple Params Limits : Type}

theorem PlanNode.getChildren_setInputTables (n : PlanNode) (ins : List Table) :
    (n.setInputTables ins).getChildren = n.getChildren := by
  cases n; rfl

theorem PlanNode.kind_setInputTables (n : PlanNode) (ins : List Table) :
    (n.setInputTables ins).kind = n.kind := by
  cases n; rfl

theorem PlanNode.getInputTables_setInputTables (n : PlanNode) (ins : List Table) :
    (n.setInputTables ins).getInputTables = ins := by
  cases n; rfl

theorem PlanNode.getInputTables_setTargetTable (n : PlanNode) (t : Table) :
    (n.setTargetTable t).getInputTables = n.getInputTables := by
  cases n with
  | mk i k cs o ins d => cases k <;> rfl

theorem PlanNode.getTargetTable_setTargetTable (n : PlanNode) (t : Table) (name : String)
    (hname : n.getTargetTableName = some name) :
    (n.setTargetTable t).getTargetTable = some t := by
  cases n with
  | mk i k cs o ins d =>
    cases k with
    | scan nm tt => rfl
    | operation nm tt => rfl
    | other => simp [PlanNode.getTargetTableName, PlanNode.kind] at hname

theorem PlanNode.getTargetTableName_setInputTables (n : PlanNode) (ins : List Table) :
    (n.setInputTables ins).getTargetTableName = n.getTargetTableName := by
  simp [PlanNode.getTargetTableName, PlanNode.kind_setInputTables]

theorem PlanNode.getTargetTable_setInputTables (n : PlanNode) (ins : List Table) :
    (n.setInputTables ins).getTargetTable = n.getTargetTable := by
  simp [PlanNode.getTargetTable, PlanNode.kind_setInputTables]

theorem PlanNode.scan_or_operation_of_name (n : PlanNode) (name : String)
    (hname : n.getTargetTableName = some name) : (n.isScan || n.isOperation) = true := by
  cases n with
  | mk i k cs o ins d =>
    cases k <;> simp [PlanNode.getTargetTableName, PlanNode.isScan, PlanNode.isOperation,
      PlanNode.kind] at hname ⊢

theorem PlanNode.name_of_scan_or_operation (n : PlanNode)
    (hkind : (n.isScan || n.isOperation) = true) : ∃ name, n.getTargetTableName = some name := by
  cases n with
  | mk i k cs o ins d =>
    cases k <;> simp [PlanNode.getTargetTableName, PlanNode.isScan, PlanNode.isOperation,
      PlanNode.kind] at hkind ⊢

/-- The child loop succeeds with the tables gathered so far followed by the children's output
tables, in child order. -/
theorem gatherInputTables_some (cs : List PlanNode) :
    ∀ (acc r : List Table), gatherInputTables cs acc = some r →
      r.map some = acc.map some ++ cs.map PlanNode.getOutputTable := by
  induction cs with
  | nil => intro acc r hr; simp [gatherInputTables] at hr; simp [hr]
  | cons c rest ih =>
    intro acc r hr
    cases hc : c.getOutputTable with
    | none => simp [gatherInputTables, hc] at hr
    | some t =>
      simp only [gatherInputTables, hc] at hr
      have := ih (acc ++ [t]) r hr
      simp [this, hc]

/-- The child loop fails exactly when some child has no output table. -/
theorem gatherInputTables_eq_none_iff (cs : List PlanNode) :
    ∀ acc : List Table,
      gatherInputTables cs acc = none ↔ ∃ c ∈ cs, c.getOutputTable = none := by
  induction cs with
  | nil => intro acc; simp [gatherInputTables]
  | cons c rest ih =>
    intro acc
    cases hc : c.getOutputTable with
    | none => simp [gatherInputTables, hc]
    | some t => simp [gatherInputTables, hc, ih]

/-- The target-table step asks the engine at most once and calls no hook. -/
theorem resolveTargetTable_trace (engine : VoltDBEngine) (node : PlanNode) :
    policyAnswers (@resolveTargetTable Tuple engine node).2 = []
      ∧ initHookCalls (@resolveTargetTable Tuple engine node).2 = [] := by
  unfold resolveTargetTable
  split
  · split
    · simp [policyAnswers, initHookCalls]
    · split
      · simp [policyAnswers, initHookCalls]
      · split <;> simp [policyAnswers, initHookCalls]
  · simp [policyAnswers, initHookCalls]

/-- The target-table step leaves the input tables of the node alone. -/
theorem resolveTargetTable_inputTables (engine : VoltDBEngine) (node node2 : PlanNode)
    (hres : (@resolveTargetTable Tuple engine node).1 = some node2) :
    node2.getInputTables = node.getInputTables := by
  unfold resolveTargetTable at hres
  split at hres
  · split at hres
    · simp at hres; rw [← hres]
    · split at hres
      · simp at hres; rw [← hres]
      · split at hres
        · simp at hres
        · simp at hres; rw [← hres, PlanNode.getInputTables_setTargetTable]
  · simp at hres; rw [← hres]

/-- The target-table step on a node that is neither scan nor operation does nothing. -/
theorem resolveTargetTable_other (engine : VoltDBEngine) (node : PlanNode)
    (hkind : (node.isScan || node.isOperation) = false) :
    @resolveTargetTable Tuple engine node = (some node, []) := by
  simp [resolveTargetTable, hkind]

/-- The target-table step on a node whose target table is already set does nothing. -/
theorem resolveTargetTable_preset (engine : VoltDBEngine) (node : PlanNode) (t0 : Table)
    (hset : node.getTargetTable = some t0) :
    @resolveTargetTable Tuple engine node = (some node, []) := by
  unfold resolveTargetTable
  split
  · split
    · rfl
    · simp [hset]
  · rfl

/-- The target-table step on a scan or operation node with an unset target table asks the
engine for the table of the node's target-table name. -/
theorem resolveTargetTable_lookup (engine : VoltDBEngine) (node : PlanNode) (name : String)
    (hname : node.getTargetTableName = some name) (hunset : node.getTargetTable = none) :
    @resolveTargetTable Tuple engine node
      = (match engine.getTable name with
          | none => none
          | some t => some (node.setTargetTable t), [Event.getTable name]) := by
  have hkind := node.scan_or_operation_of_name name hname
  unfold resolveTargetTable
  simp only [hkind, if_true, hname, hunset]
  cases engine.getTable name <;> rfl

theorem init_of_unbound_child (h : Hooks σ Tuple Params Limits) (engine : VoltDBEngine)
    (limits : Limits) (ex : AbstractExecutor σ)
    (hg : gatherInputTables ex.m_abstractNode.getChildren [] = none) :
    ex.init h engine limits = ⟨.returned false, ex, []⟩ := by
  simp [AbstractExecutor.init, hg]

theorem init_of_unresolved_target (h : Hooks σ Tuple Params Limits) (engine : VoltDBEngine)
    (limits : Limits) (ex : AbstractExecutor σ) (ins : List Table) (tr : List (Event Tuple))
    (hg : gatherInputTables ex.m_abstractNode.getChildren [] = some ins)
    (hres : resolveTargetTable engine (ex.m_abstractNode.setInputTables ins) = (none, tr)) :
    ex.init h engine limits
      = ⟨.returned false, ⟨ex.m_abstractNode.setInputTables ins, ex.m_tmpOutputTable,
          ex.needs_outputtable_clear_cached, ex.derived⟩, tr⟩ := by
  simp [AbstractExecutor.init, hg, hres]

theorem init_of_resolved_target (h : Hooks σ Tuple Params Limits) (engine : VoltDBEngine)
    (limits : Limits) (ex : AbstractExecutor σ) (ins : List Table) (node2 : PlanNode)
    (tr : List (Event Tuple))
    (hg : gatherInputTables ex.m_abstractNode.getChildren [] = some ins)
    (hres : resolveTargetTable engine (ex.m_abstractNode.setInputTables ins)
      = (some node2, tr)) :
    ex.init h engine limits = initOperator h limits ex node2 tr := by
  simp [AbstractExecutor.init, hg, hres]

theorem initOperator_declined (h : Hooks σ Tuple Params Limits) (limits : Limits)
    (ex : AbstractExecutor σ) (node : PlanNode) (tr : List (Event Tuple)) (n : PlanNode)
    (s : σ)
    (hp : h.p_init node limits (h.needsOutputTableClear ex.derived).2 = .returned false n s) :
    initOperator h limits ex node tr
      = ⟨.returned false,
          ⟨n, ex.m_tmpOutputTable, (h.needsOutputTableClear ex.derived).1, s⟩,
          tr ++ [Event.needsOutputTableClear (h.needsOutputTableClear ex.derived).1,
            Event.p_init node]⟩ := by
  simp only [initOperator, hp]

theorem initOperator_raised (h : Hooks σ Tuple Params Limits) (limits : Limits)
    (ex : AbstractExecutor σ) (node : PlanNode) (tr : List (Event Tuple)) (f : Fault)
    (n : PlanNode) (s : σ)
    (hp : h.p_init node limits (h.needsOutputTableClear ex.derived).2 = .raised f n s) :
    initOperator h limits ex node tr
      = ⟨.threw (if f.isStdException then
            .serializableEEException .VOLT_EE_EXCEPTION_TYPE_EEEXCEPTION
              (initFailureMessage n.debug)
          else .uncaught f),
          ⟨n, ex.m_tmpOutputTable, (h.needsOutputTableClear ex.derived).1, s⟩,
          tr ++ [Event.needsOutputTableClear (h.needsOutputTableClear ex.derived).1,
            Event.p_init node]⟩ := by
  simp only [initOperator, hp]
  split <;> rfl

theorem initOperator_accepted (h : Hooks σ Tuple Params Limits) (limits : Limits)
    (ex : AbstractExecutor σ) (node : PlanNode) (tr : List (Event Tuple)) (n : PlanNode)
    (s : σ)
    (hp : h.p_init node limits (h.needsOutputTableClear ex.derived).2 = .returned true n s) :
    initOperator h limits ex node tr
      = ⟨.returned true,
          ⟨n, if (h.needsOutputTableClear ex.derived).1 then
                dynamic_cast_TempTable n.getOutputTable
              else none,
            (h.needsOutputTableClear ex.derived).1, s⟩,
          tr ++ [Event.needsOutputTableClear (h.needsOutputTableClear ex.derived).1,
            Event.p_init node]⟩ := by
  simp only [initOperator, hp]
  cases (h.needsOutputTableClear ex.derived).1 <;> rfl

/-- Whatever `p_init` does, the last part of `init` logs one policy evaluation and one call
of `p_init` on the node it was entered with. -/
theorem initOperator_trace (h : Hooks σ Tuple Params Limits) (limits : Limits)
    (ex : AbstractExecutor σ) (node : PlanNode) (tr : List (Event Tuple)) :
    (initOperator h limits ex node tr).trace
      = tr ++ [Event.needsOutputTableClear (h.needsOutputTableClear ex.derived).1,
          Event.p_init node] := by
  cases hp : h.p_init node limits (h.needsOutputTableClear ex.derived).2 with
  | returned ok n s =>
    cases ok
    · rw [initOperator_declined h limits ex node tr n s hp]
    · rw [initOperator_accepted h limits ex node tr n s hp]
  | raised f n s => rw [initOperator_raised h limits ex node tr f n s hp]

/-- The node that the last part of `init` leaves on the executor is the one `p_init` left. -/
theorem initOperator_node (h : Hooks σ Tuple Params Limits) (limits : Limits)
    (ex : AbstractExecutor σ) (node : PlanNode) (tr : List (Event Tuple)) :
    (initOperator h limits ex node tr).exec.m_abstractNode
      = (h.p_init node limits (h.needsOutputTableClear ex.derived).2).node := by
  cases hp : h.p_init node limits (h.needsOutputTableClear ex.derived).2 with
  | returned ok n s =>
    cases ok
    · rw [initOperator_declined h limits ex node tr n s hp]; rfl
    · rw [initOperator_accepted h limits ex node tr n s hp]; rfl
  | raised f n s => rw [initOperator_raised h limits ex node tr f n s hp]; rfl

/-- The last part of `init` returns `true` exactly when `p_init` returns `true`. -/
theorem initOperator_result_true_iff (h : Hooks σ Tuple Params Limits) (limits : Limits)
    (ex : AbstractExecutor σ) (node : PlanNode) (tr : List (Event Tuple)) :
    (initOperator h limits ex node tr).result = .returned true
      ↔ ∃ n s, h.p_init node limits (h.needsOutputTableClear ex.derived).2
          = .returned true n s := by
  cases hp : h.p_init node limits (h.needsOutputTableClear ex.derived).2 with
  | returned ok n s =>
    cases ok
    · rw [initOperator_declined h limits ex node tr n s hp]; simp
    · rw [initOperator_accepted h limits ex node tr n s hp]; simp
  | raised f n s => rw [initOperator_raised h limits ex node tr f n s hp]; simp

theorem initHookCalls_append (a b : List (Event Tuple)) :
    initHookCalls (a ++ b) = initHookCalls a ++ initHookCalls b := by
  induction a with
  | nil => rfl
  | cons e rest ih => cases e <;> simp [initHookCalls, ih]

theorem tableLookups_append (a b : List (Event Tuple)) :
    tableLookups (a ++ b) = tableLookups a ++ tableLookups b := by
  induction a with
  | nil => rfl
  | cons e rest ih => cases e <;> simp [tableLookups, ih]

/-- Once the children are bound and the target table is resolved to `node2`, `init` calls
`p_init` exactly once, on `node2`. -/
theorem init_hook_calls_of_resolved (h : Hooks σ Tuple Params Limits) (engine : VoltDBEngine)
    (limits : Limits) (ex : AbstractExecutor σ) (ins : List Table) (node2 : PlanNode)
    (tr : List (Event Tuple))
    (hg : gatherInputTables ex.m_abstractNode.getChildren [] = some ins)
    (hres : resolveTargetTable engine (ex.m_abstractNode.setInputTables ins)
      = (some node2, tr)) :
    initHookCalls (ex.init h engine limits).trace = [node2] := by
  have htr := (@resolveTargetTable_trace Tuple engine
    (ex.m_abstractNode.setInputTables ins)).2
  rw [hres] at htr
  rw [init_of_resolved_target h engine limits ex ins node2 tr hg hres, initOperator_trace,
    initHookCalls_append]
  simp at htr
  simp [htr, initHookCalls]

/-- If `init` has called `p_init` on `bound`, then the children were bound, the target table
was resolved, and `init` ended in its last part, entered with `bound`. -/
theorem init_of_hook_call (h : Hooks σ Tuple Params Limits) (engine : VoltDBEngine)
    (limits : Limits) (ex : AbstractExecutor σ) (bound : PlanNode)
    (hcall : initHookCalls (ex.init h engine limits).trace = [bound]) :
    ∃ (ins : List Table) (tr : List (Event Tuple)),
      gatherInputTables ex.m_abstractNode.getChildren [] = some ins
        ∧ resolveTargetTable engine (ex.m_abstractNode.setInputTables ins) = (some bound, tr)
        ∧ ex.init h engine limits = initOperator h limits ex bound tr := by
  cases hg : gatherInputTables ex.m_abstractNode.getChildren [] with
  | none =>
    rw [init_of_unbound_child h engine limits ex hg] at hcall
    simp [initHookCalls] at hcall
  | some ins =>
    cases hres : @resolveTargetTable Tuple engine (ex.m_abstractNode.setInputTables ins) with
    | mk o tr =>
      cases o with
      | none =>
        have htr := (@resolveTargetTable_trace Tuple engine
          (ex.m_abstractNode.setInputTables ins)).2
        rw [hres] at htr
        rw [init_of_unresolved_target h engine limits ex ins tr hg hres] at hcall
        simp at htr hcall
        rw [htr] at hcall
        simp at hcall
      | some node2 =>
        have hone := init_hook_calls_of_resolved h engine limits ex ins node2 tr hg hres
        rw [hone] at hcall
        have hb : node2 = bound := by simpa using hcall
        subst hb
        exact ⟨ins, tr, rfl, hres, init_of_resolved_target h engine limits ex ins node2 tr hg hres⟩

/-- If `init` returns `true`, the children were bound, the target table was resolved, and
`p_init` returned `true`. -/
theorem init_of_success (h : Hooks σ Tuple Params Limits) (engine : VoltDBEngine)
    (limits : Limits) (ex : AbstractExecutor σ)
    (hok : (ex.init h engine limits).result = .returned true) :
    ∃ (ins : List Table) (node2 : PlanNode) (tr : List (Event Tuple)),
      gatherInputTables ex.m_abstractNode.getChildren [] = some ins
        ∧ resolveTargetTable engine (ex.m_abstractNode.setInputTables ins) = (some node2, tr)
        ∧ ex.init h engine limits = initOperator h limits ex node2 tr := by
  cases hg : gatherInputTables ex.m_abstractNode.getChildren [] with
  | none =>
    rw [init_of_unbound_child h engine limits ex hg] at hok
    simp at hok
  | some ins =>
    cases hres : @resolveTargetTable Tuple engine (ex.m_abstractNode.setInputTables ins) with
    | mk o tr =>
      cases o with
      | none =>
        rw [init_of_unresolved_target h engine limits ex ins tr hg hres] at hok
        simp at hok
      | some node2 =>
        exact ⟨ins, node2, tr, rfl, hres,
          init_of_resolved_target h engine limits ex ins node2 tr hg hres⟩

/-- If `init` has called `p_init` on `bound`, its log is the log of the target-table step
followed by one evaluation of the clearing policy and the call of `p_init`, in that order. -/
theorem init_trace_of_hook_call (h : Hooks σ Tuple Params Limits) (engine : VoltDBEngine)
    (limits : Limits) (ex : AbstractExecutor σ) (bound : PlanNode)
    (hcall : initHookCalls (ex.init h engine limits).trace = [bound]) :
    ∃ lookups : List (Event Tuple),
      policyAnswers lookups = [] ∧ initHookCalls lookups = []
        ∧ (ex.init h engine limits).trace
            = lookups ++ [Event.needsOutputTableClear (h.needsOutputTableClear ex.derived).1,
                Event.p_init bound] := by
  obtain ⟨ins, tr, _, hres, hinit⟩ := init_of_hook_call h engine limits ex bound hcall
  have htr := @resolveTargetTable_trace Tuple engine (ex.m_abstractNode.setInputTables ins)
  rw [hres] at htr
  exact ⟨tr, htr.1, htr.2, by rw [hinit, initOperator_trace]⟩

/-- In every run of `init`, the clearing policy is asked as often as `p_init` is called, and
that is at most once. -/
theorem init_policyAnswers_length (h : Hooks σ Tuple Params Limits) (engine : VoltDBEngine)
    (limits : Limits) (ex : AbstractExecutor σ) :
    (policyAnswers (ex.init h engine limits).trace).length
        = (initHookCalls (ex.init h engine limits).trace).length
      ∧ (policyAnswers (ex.init h engine limits).trace).length ≤ 1 := by
  cases hg : gatherInputTables ex.m_abstractNode.getChildren [] with
  | none =>
    rw [init_of_unbound_child h engine limits ex hg]
    simp [policyAnswers, initHookCalls]
  | some ins =>
    cases hres : @resolveTargetTable Tuple engine (ex.m_abstractNode.setInputTables ins) with
    | mk o tr =>
      have htr := @resolveTargetTable_trace Tuple engine (ex.m_abstractNode.setInputTables ins)
      rw [hres] at htr
      simp only at htr
      cases o with
      | none =>
        rw [init_of_unresolved_target h engine limits ex ins tr hg hres]
        simp [htr.1, htr.2]
      | some node2 =>
        rw [init_of_resolved_target h engine limits ex ins node2 tr hg hres, initOperator_trace]
        simp [policyAnswers_append, initHookCalls_append, htr.1, htr.2, policyAnswers,
          initHookCalls]

/-- The executor a successful `init` leaves: the node and state `p_init` left, the policy's
answer as cached flag, and as cached table the output table of the node if the answer is
`true` and the table is a `TempTable`. -/
theorem init_success_state (h : Hooks σ Tuple Params Limits) (engine : VoltDBEngine)
    (limits : Limits) (ex : AbstractExecutor σ)
    (hok : (ex.init h engine limits).result = .returned true) :
    ∃ (bound n : PlanNode) (s : σ),
      initHookCalls (ex.init h engine limits).trace = [bound]
        ∧ h.p_init bound limits (h.needsOutputTableClear ex.derived).2 = .returned true n s
        ∧ (ex.init h engine limits).exec
            = ⟨n, if (h.needsOutputTableClear ex.derived).1 then
                  dynamic_cast_TempTable n.getOutputTable
                else none,
                (h.needsOutputTableClear ex.derived).1, s⟩ := by
  obtain ⟨ins, node2, tr, hg, hres, hinit⟩ := init_of_success h engine limits ex hok
  have hok2 := hok
  rw [hinit, initOperator_result_true_iff] at hok2
  obtain ⟨n, s, hp⟩ := hok2
  refine ⟨node2, n, s, init_hook_calls_of_resolved h engine limits ex ins node2 tr hg hres, hp,
    ?_⟩
  rw [hinit, initOperator_accepted h limits ex node2 tr n s hp]

theorem clearOwnOutputTable_skipped (h : Hooks σ Tuple Params Limits)
    (ex : AbstractExecutor σ) (hp : (h.needsOutputTableClear ex.derived).1 = false) :
    clearOwnOutputTable h ex
      = ⟨.returned true,
          ⟨ex.m_abstractNode, ex.m_tmpOutputTable, ex.needs_outputtable_clear_cached,
            (h.needsOutputTableClear ex.derived).2⟩,
          [Event.needsOutputTableClear false]⟩ := by
  simp [clearOwnOutputTable, hp]

theorem clearOwnOutputTable_cleared (h : Hooks σ Tuple Params Limits)
    (ex : AbstractExecutor σ) (t : Table) (hp : (h.needsOutputTableClear ex.derived).1 = true)
    (ho : ex.m_abstractNode.getOutputTable = some t) :
    clearOwnOutputTable h ex
      = ⟨.returned true,
          ⟨ex.m_abstractNode, ex.m_tmpOutputTable, ex.needs_outputtable_clear_cached,
            (h.needsOutputTableClear ex.derived).2⟩,
          [Event.needsOutputTableClear true, Event.deleteAllTuples t]⟩ := by
  simp [clearOwnOutputTable, hp, ho]

theorem clearOwnOutputTable_asserted (h : Hooks σ Tuple Params Limits)
    (ex : AbstractExecutor σ) (hp : (h.needsOutputTableClear ex.derived).1 = true)
    (ho : ex.m_abstractNode.getOutputTable = none) :
    clearOwnOutputTable h ex
      = ⟨.assertionFailed,
          ⟨ex.m_abstractNode, ex.m_tmpOutputTable, ex.needs_outputtable_clear_cached,
            (h.needsOutputTableClear ex.derived).2⟩,
          [Event.needsOutputTableClear true]⟩ := by
  simp [clearOwnOutputTable, hp, ho]

/-- The part of `clearOutputTable_pull` for the own node asks the clearing policy once. -/
theorem clearOwnOutputTable_policyAnswers (h : Hooks σ Tuple Params Limits)
    (ex : AbstractExecutor σ) :
    policyAnswers (clearOwnOutputTable h ex).trace
      = [(h.needsOutputTableClear ex.derived).1] := by
  cases hp : (h.needsOutputTableClear ex.derived).1 with
  | false => rw [clearOwnOutputTable_skipped h ex hp]; rfl
  | true =>
    cases ho : ex.m_abstractNode.getOutputTable with
    | none => rw [clearOwnOutputTable_asserted h ex hp ho]; rfl
    | some t => rw [clearOwnOutputTable_cleared h ex t hp ho]; rfl

/-- The log of the part of `clearOutputTable_pull` for the own node, on a node whose
assertion holds, is the clearing step. -/
theorem clearOwnOutputTable_step (h : Hooks σ Tuple Params Limits) (ex : AbstractExecutor σ)
    (hassert : (h.needsOutputTableClear ex.derived).1 = true →
      ex.m_abstractNode.getOutputTable ≠ none) :
    (clearOwnOutputTable h ex).result = .returned true
      ∧ (clearOwnOutputTable h ex).trace.map
            (fun e => (ex.m_abstractNode.getPlanNodeId, e))
          = clearingStep (h, ex) := by
  cases hp : (h.needsOutputTableClear ex.derived).1 with
  | false =>
    rw [clearOwnOutputTable_skipped h ex hp]
    simp [clearingStep, hp]
  | true =>
    cases ho : ex.m_abstractNode.getOutputTable with
    | none => exact absurd ho (hassert hp)
    | some t =>
      rw [clearOwnOutputTable_cleared h ex t hp ho]
      simp [clearingStep, hp, ho]

/-- When every child has an output table, the child loop gathers exactly those tables. -/
theorem gatherInputTables_of_bound_children (cs : List PlanNode)
    (hchildren : ∀ c ∈ cs, c.getOutputTable ≠ none) :
    gatherInputTables cs [] = some (cs.filterMap PlanNode.getOutputTable) := by
  cases hg : gatherInputTables cs [] with
  | none =>
    obtain ⟨c, hc, hnone⟩ := (gatherInputTables_eq_none_iff cs []).1 hg
    exact absurd hnone (hchildren c hc)
  | some ins =>
    have hmap : ins.map some = cs.map PlanNode.getOutputTable := by
      simpa using gatherInputTables_some cs [] ins hg
    have h1 : (ins.map some).filterMap id = ins := by
      rw [List.filterMap_map]
      exact List.filterMap_some ins
    have h2 : (cs.map PlanNode.getOutputTable).filterMap id
        = cs.filterMap PlanNode.getOutputTable := by
      rw [List.filterMap_map]
      rfl
    rw [← h1, hmap, h2]

/-- When every child has an output table and the target table of a scan or operation node
is set or known to the engine, `init` reaches its last part: it calls `p_init`, exactly once,
on the bound node. -/
theorem init_reaches_p_init (h : Hooks σ Tuple Params Limits) (engine : VoltDBEngine)
    (limits : Limits) (ex : AbstractExecutor σ)
    (hchildren : ∀ c ∈ ex.m_abstractNode.getChildren, c.getOutputTable ≠ none)
    (htarget : (ex.m_abstractNode.isScan || ex.m_abstractNode.isOperation) = true →
      ex.m_abstractNode.getTargetTable ≠ none
        ∨ ∃ name, ex.m_abstractNode.getTargetTableName = some name
            ∧ engine.getTable name ≠ none) :
    initHookCalls (ex.init h engine limits).trace = [boundNode engine ex.m_abstractNode]
      ∧ ∃ tr : List (Event Tuple),
          ex.init h engine limits
            = initOperator h limits ex (boundNode engine ex.m_abstractNode) tr := by
  have hg := gatherInputTables_of_bound_children _ hchildren
  have hres : ∃ tr : List (Event Tuple),
      resolveTargetTable engine (ex.m_abstractNode.setInputTables
        (ex.m_abstractNode.getChildren.filterMap PlanNode.getOutputTable))
        = (some (boundNode engine ex.m_abstractNode), tr) := by
    cases hkind : (ex.m_abstractNode.isScan || ex.m_abstractNode.isOperation) with
    | false =>
      have hname : ex.m_abstractNode.getTargetTableName = none := by
        cases hn : ex.m_abstractNode.getTargetTableName with
        | none => rfl
        | some name =>
          have := ex.m_abstractNode.scan_or_operation_of_name name hn
          rw [hkind] at this
          cases this
      refine ⟨[], ?_⟩
      rw [resolveTargetTable_other engine _ (by
        simpa [PlanNode.isScan, PlanNode.isOperation, PlanNode.kind_setInputTables]
          using hkind)]
      simp only [boundNode, hname]
      cases ex.m_abstractNode.getTargetTable <;> rfl
    | true =>
      obtain ⟨name, hname⟩ := ex.m_abstractNode.name_of_scan_or_operation hkind
      cases htt : ex.m_abstractNode.getTargetTable with
      | some t0 =>
        refine ⟨[], ?_⟩
        rw [resolveTargetTable_preset engine _ t0
          (by rw [PlanNode.getTargetTable_setInputTables, htt])]
        simp only [boundNode, htt]
      | none =>
        rcases htarget hkind with hset | ⟨name', hname', hknown⟩
        · exact absurd htt hset
        · have hsame : name' = name := by
            rw [hname] at hname'
            exact (Option.some.inj hname').symm
          subst hsame
          cases hlook : engine.getTable name' with
          | none => exact absurd hlook hknown
          | some t =>
            refine ⟨[Event.getTable name'], ?_⟩
            rw [resolveTargetTable_lookup engine _ name'
              (by rw [PlanNode.getTargetTableName_setInputTables, hname])
              (by rw [PlanNode.getTargetTable_setInputTables, htt]), hlook]
            simp only [boundNode, htt, hname, hlook]
  obtain ⟨tr, hres⟩ := hres
  exact ⟨init_hook_calls_of_resolved h engine limits ex _ _ tr hg hres,
    tr, init_of_resolved_target h engine limits ex _ _ tr hg hres⟩

/-- The message never exceeds the 127 characters the buffer holds besides the final NUL. -/
theorem initFailureMessage_length_le (d : String) : (initFailureMessage d).length ≤ 127 := by
  simp only [initFailureMessage, String.length]
  exact List.length_take_le _ _

/-- A description without NUL and of at most 82 characters is formatted without loss. -/
theorem initFailureMessage_of_short (d : String)
    (hnul : ∀ c ∈ d.data, c ≠ Char.ofNat 0) (hlen : d.length ≤ 82) :
    (initFailureMessage d).data = formattedInitFailure d := by
  have hc : c_str d = d.data := by
    unfold c_str
    rw [List.takeWhile_eq_self_iff]
    intro c hcmem
    simpa using hnul c hcmem
  have hpre : "The Executor failed to initialize PlanNode ".data.length = 43 := by decide
  simp only [initFailureMessage, formattedInitFailure, hc]
  apply List.take_of_length_le
  simp only [List.length_append, List.length_cons, List.length_nil, hpre]
  simp only [String.length] at hlen
  omega

/-- The descriptions of the input nodes of a list of children determine the gathered list. -/
theorem gatherInputTables_unique (cs : List PlanNode) (ins ins' : List Table)
    (hg : gatherInputTables cs [] = some ins')
    (hins : ins.map some = cs.map PlanNode.getOutputTable) : ins' = ins := by
  have h1 : ins'.map some = cs.map PlanNode.getOutputTable := by
    simpa using gatherInputTables_some cs [] ins' hg
  rw [← hins] at h1
  exact List.map_injective_iff.2 (Option.some_injective Table) h1

mutual
/-- On a tree in which the assertion holds at every node, `clearOutputTable_pull` returns
`true` and its log is the clearing steps of the nodes in post-order. -/
theorem clearOutputTable_pull_postOrder (params : Params) :
    ∀ t : ExecutorTree σ Tuple Params Limits,
      (∀ n ∈ postOrder t, (n.1.needsOutputTableClear n.2.derived).1 = true →
          n.2.m_abstractNode.getOutputTable ≠ none) →
        (clearOutputTable_pull params t).result = .returned true
          ∧ (clearOutputTable_pull params t).trace = (postOrder t).flatMap clearingStep
  | .mk h ex children => by
    intro hassert
    have hbelow := iterate_children_pull_postOrder params children
      (fun n hn => hassert n (by simp [postOrder, hn]))
    have hown := clearOwnOutputTable_step h ex (hassert (h, ex) (by simp [postOrder]))
    simp only [clearOutputTable_pull, hbelow.1, if_true, hbelow.2, hown.1, hown.2, postOrder,
      List.flatMap_append, List.flatMap_cons, List.flatMap_nil, List.append_nil]
    exact ⟨trivial, trivial⟩
/-- The same for `iterate_children_pull` on a list of trees. -/
theorem iterate_children_pull_postOrder (params : Params) :
    ∀ ts : List (ExecutorTree σ Tuple Params Limits),
      (∀ n ∈ postOrderList ts, (n.1.needsOutputTableClear n.2.derived).1 = true →
          n.2.m_abstractNode.getOutputTable ≠ none) →
        (iterate_children_pull params ts).1 = true
          ∧ (iterate_children_pull params ts).2.2 = (postOrderList ts).flatMap clearingStep
  | [] => by
    intro _
    exact ⟨rfl, rfl⟩
  | child :: rest => by
    intro hassert
    have hfirst := clearOutputTable_pull_postOrder params child
      (fun n hn => hassert n (by simp [postOrderList, hn]))
    have hrest := iterate_children_pull_postOrder params rest
      (fun n hn => hassert n (by simp [postOrderList, hn]))
    simp only [iterate_children_pull, hfirst.1, hfirst.2, hrest.1, hrest.2, postOrderList,
      List.flatMap_append]
    exact ⟨trivial, trivial⟩
end

end InitLemmas

/-! ## Claims -/

section Claims

variable {σ Tuple Params Limits : Type}

/-- C2 (defect): with an insert hook that refuses its tuple and a production hook that
never writes `status`, `execute_pull` still calls the production hook again after the failed
insert (the fourth event), and only then leaves the loop. -/
theorem execute_pull_calls_production_after_failed_insert :
    ((leafExecutor 0).execute_pull refusingOutputHooks () 5).trace
        = [Event.p_pre_execute_pull true, Event.p_next_pull (some 10) true,
            Event.p_insert_output_table_pull 10 false, Event.p_next_pull (some 11) false]
      ∧ ((leafExecutor 0).execute_pull refusingOutputHooks () 5).result = some false := by
  constructor <;> rfl

/-- C3 (defect): with an insert hook that refuses its tuple and a production hook that writes
`status = true` on every call, `execute_pull` calls the post-execution hook and returns its
result `true`, although the insert hook signalled failure. -/
theorem execute_pull_succeeds_after_failed_insert :
    ((leafExecutor 0).execute_pull statusResettingHooks () 5).trace
        = [Event.p_pre_execute_pull true, Event.p_next_pull (some 10) true,
            Event.p_insert_output_table_pull 10 false, Event.p_next_pull none true,
            Event.p_post_execute_pull true]
      ∧ ((leafExecutor 0).execute_pull statusResettingHooks () 5).result = some true := by
  constructor <;> rfl

/-- C4: if the pre-execution hook succeeds, the production hook yields the `n` ordinary tuples
`ts` with success status and then the end-of-stream sentinel, and every insert succeeds, then
`execute_pull` (given room for `n + 1` iterations) returns the result of the post-execution
hook; its log is a body followed by one post-execution call, and the body holds exactly
`n + 1` production calls, exactly the `n` inserts of `ts` in order, and no post-execution
call. -/
theorem execute_pull_of_successful_stream (h : Hooks σ Tuple Params Limits) (params : Params)
    (ex : AbstractExecutor σ) (ts : List Tuple) (s' : σ) (fuel : Nat)
    (hpre : (h.p_pre_execute_pull params ex.derived).1 = true)
    (hrun : yieldsThenEnds h params ts (h.p_pre_execute_pull params ex.derived).2 s')
    (hfuel : ts.length < fuel) :
    (ex.execute_pull h params fuel).result = some (h.p_post_execute_pull params s').1
      ∧ ∃ body : List (Event Tuple),
          (ex.execute_pull h params fuel).trace
              = body ++ [Event.p_post_execute_pull (h.p_post_execute_pull params s').1]
            ∧ (producedAnswers body).length = ts.length + 1
            ∧ insertedTuples body = ts
            ∧ (insertedTuples body).length = ts.length
            ∧ postAnswers body = [] := by
  have hloop := pullLoop_of_yieldsThenEnds h params ts fuel _ s' hrun hfuel
  refine ⟨?_, (match ex.m_tmpOutputTable with
      | some t => [Event.deleteAllTuplesNonVirtual t]
      | none => []) ++ [Event.p_pre_execute_pull true] ++ successfulLoopEvents ts, ?_, ?_, ?_,
    ?_, ?_⟩
  · simp [AbstractExecutor.execute_pull, hpre, hloop]
  · simp [AbstractExecutor.execute_pull, hpre, hloop]
  · cases ex.m_tmpOutputTable <;>
      simp [producedAnswers_append, producedAnswers, producedAnswers_successfulLoopEvents]
  · cases ex.m_tmpOutputTable <;>
      simp [insertedTuples_append, insertedTuples, insertedTuples_successfulLoopEvents]
  · cases ex.m_tmpOutputTable <;>
      simp [insertedTuples_append, insertedTuples, insertedTuples_successfulLoopEvents]
  · cases ex.m_tmpOutputTable <;>
      simp [postAnswers_append, postAnswers, postAnswers_successfulLoopEvents]

/-- C4 at `n = 3`: the operator that produces 1, 2, 3 and then the sentinel. -/
theorem execute_pull_of_successful_stream_witness :
    ((leafExecutor [1, 2, 3]).execute_pull listHooks () 4).result = some true
      ∧ ∃ body : List (Event Nat),
          ((leafExecutor [1, 2, 3]).execute_pull listHooks () 4).trace
              = body ++ [Event.p_post_execute_pull true]
            ∧ (producedAnswers body).length = 3 + 1
            ∧ insertedTuples body = [1, 2, 3]
            ∧ (insertedTuples body).length = 3
            ∧ postAnswers body = [] :=
  execute_pull_of_successful_stream listHooks () (leafExecutor [1, 2, 3]) [1, 2, 3] [] 4 rfl
    ⟨rfl, rfl, rfl, rfl, rfl, rfl, rfl, rfl, rfl, rfl⟩ (by decide)

/-- C5: whenever `init` returns success, the input-table list that `init` has set on the node
(the list the node carries when it is handed to `p_init`) is the list of the children's output
tables, in child order and as long as the child list. The node still carries that list after
`init` if `p_init` itself does not write the input tables. -/
theorem init_binds_inputs_to_child_outputs (h : Hooks σ Tuple Params Limits)
    (engine : VoltDBEngine) (limits : Limits) (ex : AbstractExecutor σ)
    (hok : (ex.init h engine limits).result = .returned true) :
    (∃ bound : PlanNode, initHookCalls (ex.init h engine limits).trace = [bound]
        ∧ bound.getInputTables.map some
            = ex.m_abstractNode.getChildren.map PlanNode.getOutputTable
        ∧ bound.getInputTables.length = ex.m_abstractNode.getChildren.length)
      ∧ ((∀ n s, (h.p_init n limits s).node.getInputTables = n.getInputTables) →
          (ex.init h engine limits).exec.m_abstractNode.getInputTables.map some
              = ex.m_abstractNode.getChildren.map PlanNode.getOutputTable
            ∧ (ex.init h engine limits).exec.m_abstractNode.getInputTables.length
              = ex.m_abstractNode.getChildren.length) := by
  obtain ⟨ins, node2, tr, hg, hres, hinit⟩ := init_of_success h engine limits ex hok
  have hins : node2.getInputTables = ins := by
    rw [resolveTargetTable_inputTables engine _ node2 (by rw [hres]),
      PlanNode.getInputTables_setInputTables]
  have hmap : ins.map some = ex.m_abstractNode.getChildren.map PlanNode.getOutputTable := by
    simpa using gatherInputTables_some _ [] ins hg
  have hlen : ins.length = ex.m_abstractNode.getChildren.length := by
    simpa using congrArg List.length hmap
  refine ⟨⟨node2, init_hook_calls_of_resolved h engine limits ex ins node2 tr hg hres, ?_, ?_⟩,
    ?_⟩
  · rw [hins, hmap]
  · rw [hins, hlen]
  · intro hframe
    rw [hinit, initOperator_node, hframe, hins]
    exact ⟨hmap, hlen⟩

/-- C5 on the join over two scans: the input tables are `[outputA, outputB]`. -/
theorem init_binds_inputs_to_child_outputs_witness :
    ((freshExecutor joinNode).init materializingHooks sampleEngine ()).result = .returned true
      ∧ ((freshExecutor joinNode).init materializingHooks sampleEngine
            ()).exec.m_abstractNode.getInputTables.map some
          = [some outputA, some outputB]
      ∧ ((freshExecutor joinNode).init materializingHooks sampleEngine
            ()).exec.m_abstractNode.getInputTables.length = 2 :=
  ⟨by decide,
    (init_binds_inputs_to_child_outputs materializingHooks sampleEngine ()
      (freshExecutor joinNode) (by decide)).2 (fun n _ => by cases n; rfl)⟩

/-- C6: if some child of the node has no output table, `init` returns `false` without having
called anything: no lookup in the engine, no evaluation of the clearing policy, no call of
`p_init`. -/
theorem init_fails_at_once_on_unset_child_output (h : Hooks σ Tuple Params Limits)
    (engine : VoltDBEngine) (limits : Limits) (ex : AbstractExecutor σ)
    (hchild : ∃ c ∈ ex.m_abstractNode.getChildren, c.getOutputTable = none) :
    (ex.init h engine limits).result = .returned false
      ∧ (ex.init h engine limits).trace = []
      ∧ tableLookups (ex.init h engine limits).trace = []
      ∧ policyAnswers (ex.init h engine limits).trace = []
      ∧ initHookCalls (ex.init h engine limits).trace = [] := by
  have hg := (gatherInputTables_eq_none_iff ex.m_abstractNode.getChildren []).2 hchild
  rw [init_of_unbound_child h engine limits ex hg]
  exact ⟨rfl, rfl, rfl, rfl, rfl⟩

/-- C6 on a scan over `T` whose only child has no output table yet. -/
theorem init_fails_at_once_on_unset_child_output_witness :
    ((freshExecutor scanOverUnboundChild).init materializingHooks sampleEngine ()).result
        = .returned false
      ∧ ((freshExecutor scanOverUnboundChild).init materializingHooks sampleEngine ()).trace
        = []
      ∧ tableLookups
          ((freshExecutor scanOverUnboundChild).init materializingHooks sampleEngine ()).trace
        = []
      ∧ policyAnswers
          ((freshExecutor scanOverUnboundChild).init materializingHooks sampleEngine ()).trace
        = []
      ∧ initHookCalls
          ((freshExecutor scanOverUnboundChild).init materializingHooks sampleEngine ()).trace
        = [] :=
  init_fails_at_once_on_unset_child_output materializingHooks sampleEngine ()
    (freshExecutor scanOverUnboundChild)
    ⟨PlanNode.mk 1 .other [] none [] "child", List.Mem.head _, rfl⟩

/-- C7: for a scan or operation node whose target table is unset and whose target-table name
the engine does not know, `init` returns `false` and never calls `p_init`. -/
theorem init_fails_before_p_init_on_missing_target (h : Hooks σ Tuple Params Limits)
    (engine : VoltDBEngine) (limits : Limits) (ex : AbstractExecutor σ)
    (hkind : (ex.m_abstractNode.isScan || ex.m_abstractNode.isOperation) = true)
    (hunset : ex.m_abstractNode.getTargetTable = none)
    (hmissing : ∀ name, ex.m_abstractNode.getTargetTableName = some name →
      engine.getTable name = none) :
    (ex.init h engine limits).result = .returned false
      ∧ initHookCalls (ex.init h engine limits).trace = [] := by
  obtain ⟨name, hname⟩ := ex.m_abstractNode.name_of_scan_or_operation hkind
  cases hg : gatherInputTables ex.m_abstractNode.getChildren [] with
  | none =>
    rw [init_of_unbound_child h engine limits ex hg]
    exact ⟨rfl, rfl⟩
  | some ins =>
    have hres := @resolveTargetTable_lookup Tuple engine
      (ex.m_abstractNode.setInputTables ins) name
      (by rw [PlanNode.getTargetTableName_setInputTables, hname])
      (by rw [PlanNode.getTargetTable_setInputTables, hunset])
    rw [hmissing name hname] at hres
    rw [init_of_unresolved_target h engine limits ex ins _ hg hres]
    exact ⟨rfl, rfl⟩

/-- C7 on a scan node naming the table `missing`, which the engine does not have. -/
theorem init_fails_before_p_init_on_missing_target_witness :
    ((freshExecutor (scanNode "missing")).init materializingHooks sampleEngine ()).result
        = .returned false
      ∧ initHookCalls
          ((freshExecutor (scanNode "missing")).init materializingHooks sampleEngine ()).trace
        = [] :=
  init_fails_before_p_init_on_missing_target materializingHooks sampleEngine ()
    (freshExecutor (scanNode "missing")) rfl rfl
    (fun name hname => by
      have hn : name = "missing" := by
        simpa [freshExecutor, scanNode, PlanNode.getTargetTableName, PlanNode.kind, eq_comm]
          using hname
      subst hn
      decide)

/-- C8: for a scan or operation node (the kinds that have a target-table name, here `name`)
whose children all have output tables. If the target
table is unset and the engine knows the target-table name as `T`, `init` asks the engine once
and writes `T` onto the node before calling `p_init`. If the target table is already set to
`T0`, `init` does not ask the engine and the node handed to `p_init` still has `T0`. In both
cases the node has that target table after `init`, provided `p_init` itself does not write
the target table. -/
theorem init_resolves_target_table (h : Hooks σ Tuple Params Limits)
    (engine : VoltDBEngine) (limits : Limits) (ex : AbstractExecutor σ) (name : String)
    (hname : ex.m_abstractNode.getTargetTableName = some name)
    (hchildren : ∀ c ∈ ex.m_abstractNode.getChildren, c.getOutputTable ≠ none) :
    (∀ T : Table, ex.m_abstractNode.getTargetTable = none → engine.getTable name = some T →
        tableLookups (ex.init h engine limits).trace = [name]
          ∧ (∃ bound : PlanNode, initHookCalls (ex.init h engine limits).trace = [bound]
              ∧ bound.getTargetTable = some T)
          ∧ ((∀ n s, (h.p_init n limits s).node.getTargetTable = n.getTargetTable) →
              (ex.init h engine limits).exec.m_abstractNode.getTargetTable = some T))
      ∧ (∀ T0 : Table, ex.m_abstractNode.getTargetTable = some T0 →
        tableLookups (ex.init h engine limits).trace = []
          ∧ (∃ bound : PlanNode, initHookCalls (ex.init h engine limits).trace = [bound]
              ∧ bound.getTargetTable = some T0)
          ∧ ((∀ n s, (h.p_init n limits s).node.getTargetTable = n.getTargetTable) →
              (ex.init h engine limits).exec.m_abstractNode.getTargetTable = some T0)) := by
  obtain ⟨ins, hg⟩ : ∃ ins, gatherInputTables ex.m_abstractNode.getChildren [] = some ins := by
    cases hg : gatherInputTables ex.m_abstractNode.getChildren [] with
    | none =>
      obtain ⟨c, hc, hnone⟩ := (gatherInputTables_eq_none_iff _ []).1 hg
      exact absurd hnone (hchildren c hc)
    | some ins => exact ⟨ins, rfl⟩
  have hname1 : (ex.m_abstractNode.setInputTables ins).getTargetTableName = some name := by
    rw [PlanNode.getTargetTableName_setInputTables, hname]
  constructor
  · intro T hunset hT
    have hres := @resolveTargetTable_lookup Tuple engine
      (ex.m_abstractNode.setInputTables ins) name hname1
      (by rw [PlanNode.getTargetTable_setInputTables, hunset])
    rw [hT] at hres
    have htarget : ((ex.m_abstractNode.setInputTables ins).setTargetTable T).getTargetTable
        = some T := PlanNode.getTargetTable_setTargetTable _ T name hname1
    refine ⟨?_, ⟨_, init_hook_calls_of_resolved h engine limits ex ins _ _ hg hres, htarget⟩,
      ?_⟩
    · rw [init_of_resolved_target h engine limits ex ins _ _ hg hres, initOperator_trace]
      simp [tableLookups]
    · intro hframe
      rw [init_of_resolved_target h engine limits ex ins _ _ hg hres, initOperator_node,
        hframe, htarget]
  · intro T0 hset
    have hset1 : (ex.m_abstractNode.setInputTables ins).getTargetTable = some T0 := by
      rw [PlanNode.getTargetTable_setInputTables, hset]
    have hres := @resolveTargetTable_preset Tuple engine
      (ex.m_abstractNode.setInputTables ins) T0 hset1
    refine ⟨?_, ⟨_, init_hook_calls_of_resolved h engine limits ex ins _ _ hg hres, hset1⟩, ?_⟩
    · rw [init_of_resolved_target h engine limits ex ins _ _ hg hres, initOperator_trace]
      simp [tableLookups]
    · intro hframe
      rw [init_of_resolved_target h engine limits ex ins _ _ hg hres, initOperator_node,
        hframe, hset1]

/-- C8 on the scan over the existing table `T` (looked up, written back) and on a scan whose
target table is already set (engine not asked, target kept). -/
theorem init_resolves_target_table_witness :
    (tableLookups ((freshExecutor (scanNode "T")).init materializingHooks sampleEngine
          ()).trace = ["T"]
      ∧ ((freshExecutor (scanNode "T")).init materializingHooks sampleEngine
          ()).exec.m_abstractNode.getTargetTable = some tableT)
    ∧ (tableLookups ((freshExecutor presetScanNode).init materializingHooks sampleEngine
          ()).trace = []
      ∧ ((freshExecutor presetScanNode).init materializingHooks sampleEngine
          ()).exec.m_abstractNode.getTargetTable = some tableT) :=
  ⟨⟨((init_resolves_target_table materializingHooks sampleEngine () (freshExecutor (scanNode "T"))
        "T" rfl (fun _ hc => by cases hc)).1 tableT rfl (by decide)).1,
     ((init_resolves_target_table materializingHooks sampleEngine () (freshExecutor (scanNode "T"))
        "T" rfl (fun _ hc => by cases hc)).1 tableT rfl (by decide)).2.2
        (fun n _ => by cases n; rfl)⟩,
   ⟨((init_resolves_target_table materializingHooks sampleEngine () (freshExecutor presetScanNode)
        "gone" rfl (fun _ hc => by cases hc)).2 tableT rfl).1,
     ((init_resolves_target_table materializingHooks sampleEngine () (freshExecutor presetScanNode)
        "gone" rfl (fun _ hc => by cases hc)).2 tableT rfl).2.2
        (fun n _ => by cases n; rfl)⟩⟩

/-- C9 (as stated, refuted): a fault thrown by `p_init` whose type does not derive from
`std::exception` is not matched by `catch (exception& err)`; the caller of `init` observes
the original fault, not the canonical `SerializableEEException`. -/
theorem init_lets_other_faults_through :
    ((freshExecutor joinNode).init (throwingHooks ⟨"int", false⟩) sampleEngine ()).result
        = .threw (.uncaught ⟨"int", false⟩)
      ∧ ∀ message : String,
          ((freshExecutor joinNode).init (throwingHooks ⟨"int", false⟩) sampleEngine
              ()).result
            ≠ .threw (.serializableEEException .VOLT_EE_EXCEPTION_TYPE_EEEXCEPTION message) := by
  constructor
  · decide
  · intro message hmsg
    have horig : ((freshExecutor joinNode).init (throwingHooks ⟨"int", false⟩) sampleEngine
        ()).result = .threw (.uncaught ⟨"int", false⟩) := by decide
    rw [horig] at hmsg
    cases hmsg

/-- C9 (amended): when `init` calls `p_init` (on the node `bound`) and `p_init` throws a fault
whose type derives from `std::exception`, the caller of `init` observes the canonical
`SerializableEEException` of type `VOLT_EE_EXCEPTION_TYPE_EEEXCEPTION`, whose message is built
from the node's `debug()` text, whatever the fault was; a fault of any other type reaches the
caller unchanged. -/
theorem init_normalizes_std_exceptions (h : Hooks σ Tuple Params Limits)
    (engine : VoltDBEngine) (limits : Limits) (ex : AbstractExecutor σ) (bound : PlanNode)
    (fault : Fault) (n : PlanNode) (s : σ)
    (hcall : initHookCalls (ex.init h engine limits).trace = [bound])
    (hraise : h.p_init bound limits (h.needsOutputTableClear ex.derived).2
      = .raised fault n s) :
    (fault.isStdException = true →
        (ex.init h engine limits).result
          = .threw (.serializableEEException .VOLT_EE_EXCEPTION_TYPE_EEEXCEPTION
              (initFailureMessage n.debug)))
      ∧ (fault.isStdException = false →
        (ex.init h engine limits).result = .threw (.uncaught fault)) := by
  obtain ⟨ins, tr, _, _, hinit⟩ := init_of_hook_call h engine limits ex bound hcall
  rw [hinit, initOperator_raised h limits ex bound tr fault n s hraise]
  constructor <;> intro hstd <;> simp [hstd]

/-- C9 (amended) on a `p_init` that throws a `std::runtime_error`. -/
theorem init_normalizes_std_exceptions_witness :
    ((freshExecutor joinNode).init (throwingHooks ⟨"std::runtime_error", true⟩) sampleEngine
        ()).result
      = .threw (.serializableEEException .VOLT_EE_EXCEPTION_TYPE_EEEXCEPTION
          "The Executor failed to initialize PlanNode \x27join\x27") :=
  (init_normalizes_std_exceptions (throwingHooks ⟨"std::runtime_error", true⟩) sampleEngine ()
    (freshExecutor joinNode) ((freshExecutor joinNode).m_abstractNode.setInputTables
      [outputA, outputB]) ⟨"std::runtime_error", true⟩
    ((freshExecutor joinNode).m_abstractNode.setInputTables [outputA, outputB]) () rfl rfl).1
    rfl

/-- C10 (as stated, refuted): the scan over the existing table `T` has no children and its
target table resolves via the engine, yet `init` returns `false`, because the operator's
`p_init` returned `false`. -/
theorem init_fails_when_p_init_declines :
    (∀ c ∈ (freshExecutor (scanNode "T")).m_abstractNode.getChildren,
        c.getOutputTable ≠ none)
      ∧ (freshExecutor (scanNode "T")).m_abstractNode.getTargetTableName = some "T"
      ∧ sampleEngine.getTable "T" = some tableT
      ∧ ((freshExecutor (scanNode "T")).init decliningHooks sampleEngine ()).result
          = .returned false := by
  exact ⟨(fun _ hc => by cases hc), rfl, (by decide), (by decide)⟩

/-- C10 (amended): `init` returns success if and only if every child's output table is set,
the target table of a scan or operation node is set on the node or known to the engine under
the node's target-table name, and `p_init`, called on the node so bound in the state the
policy evaluation leaves, returns `true`. -/
theorem init_succeeds_iff (h : Hooks σ Tuple Params Limits) (engine : VoltDBEngine)
    (limits : Limits) (ex : AbstractExecutor σ) :
    (ex.init h engine limits).result = .returned true
      ↔ (∀ c ∈ ex.m_abstractNode.getChildren, c.getOutputTable ≠ none)
        ∧ ((ex.m_abstractNode.isScan || ex.m_abstractNode.isOperation) = true →
            ex.m_abstractNode.getTargetTable ≠ none
              ∨ ∃ name, ex.m_abstractNode.getTargetTableName = some name
                  ∧ engine.getTable name ≠ none)
        ∧ ∃ (n : PlanNode) (s : σ),
            h.p_init (boundNode engine ex.m_abstractNode) limits
                (h.needsOutputTableClear ex.derived).2
              = .returned true n s := by
  constructor
  · intro hok
    obtain ⟨ins, node2, tr, hg, hres, hinit⟩ := init_of_success h engine limits ex hok
    have hchildren : ∀ c ∈ ex.m_abstractNode.getChildren, c.getOutputTable ≠ none := by
      intro c hc hnone
      have := (gatherInputTables_eq_none_iff ex.m_abstractNode.getChildren []).2 ⟨c, hc, hnone⟩
      rw [hg] at this
      cases this
    have htarget : (ex.m_abstractNode.isScan || ex.m_abstractNode.isOperation) = true →
        ex.m_abstractNode.getTargetTable ≠ none
          ∨ ∃ name, ex.m_abstractNode.getTargetTableName = some name
              ∧ engine.getTable name ≠ none := by
      intro hkind
      cases htt : ex.m_abstractNode.getTargetTable with
      | some t => left; simp
      | none =>
        right
        obtain ⟨name, hname⟩ := ex.m_abstractNode.name_of_scan_or_operation hkind
        refine ⟨name, hname, ?_⟩
        intro hmissing
        have hlook := @resolveTargetTable_lookup Tuple engine
          (ex.m_abstractNode.setInputTables ins) name
          (by rw [PlanNode.getTargetTableName_setInputTables, hname])
          (by rw [PlanNode.getTargetTable_setInputTables, htt])
        rw [hmissing, hres] at hlook
        simp at hlook
    refine ⟨hchildren, htarget, ?_⟩
    obtain ⟨_, tr', hinit'⟩ := init_reaches_p_init h engine limits ex hchildren htarget
    rw [hinit', initOperator_result_true_iff] at hok
    exact hok
  · rintro ⟨hchildren, htarget, n, s, hp⟩
    obtain ⟨_, tr, hinit⟩ := init_reaches_p_init h engine limits ex hchildren htarget
    rw [hinit, initOperator_result_true_iff]
    exact ⟨n, s, hp⟩

/-- C10 (amended) on the scan over the existing table `T`: no children, the target resolves
through the engine, `p_init` returns `true` on the bound node, hence `init` succeeds. -/
theorem init_succeeds_iff_witness :
    ((freshExecutor (scanNode "T")).init materializingHooks sampleEngine ()).result
      = .returned true :=
  (init_succeeds_iff materializingHooks sampleEngine () (freshExecutor (scanNode "T"))).2
    ⟨(fun _ hc => by cases hc), (fun _ => Or.inr ⟨"T", rfl, by decide⟩),
      (boundNode sampleEngine (scanNode "T")).setOutputTable (some ⟨100, true⟩), (), rfl⟩

/-- C11 (as stated, refuted): on the scan over `T`, `init` asks the clearing policy once,
and `clearOutputTable_pull` on the initialised executor asks it again. -/
theorem clearOutputTable_pull_asks_policy_again :
    policyAnswers ((freshExecutor (scanNode "T")).init materializingHooks sampleEngine
        ()).trace = [true]
      ∧ policyAnswers
          ((clearOutputTable_pull ()
            (ExecutorTree.mk materializingHooks
              ((freshExecutor (scanNode "T")).init materializingHooks sampleEngine ()).exec
              [])).trace.map Prod.snd) = [true] := by
  constructor <;> rfl

/-- C11 (amended): `init` asks the clearing policy `needsOutputTableClear` at most once, and
exactly once whenever it returns success; `execute_pull` never asks it; the part of
`clearOutputTable_pull` for the executor's own node asks it again, once per call, and acts
on that answer. -/
theorem policy_evaluations (h : Hooks σ Tuple Params Limits) (engine : VoltDBEngine)
    (limits : Limits) (params : Params) (fuel : Nat) (ex ex' : AbstractExecutor σ) :
    (policyAnswers (ex.init h engine limits).trace).length ≤ 1
      ∧ ((ex.init h engine limits).result = .returned true →
          policyAnswers (ex.init h engine limits).trace
            = [(h.needsOutputTableClear ex.derived).1])
      ∧ policyAnswers (ex'.execute_pull h params fuel).trace = []
      ∧ policyAnswers (clearOwnOutputTable h ex').trace
          = [(h.needsOutputTableClear ex'.derived).1] := by
  refine ⟨(init_policyAnswers_length h engine limits ex).2, ?_,
    execute_pull_policyAnswers h params fuel ex', clearOwnOutputTable_policyAnswers h ex'⟩
  intro hok
  obtain ⟨bound, _, _, hcall, _, _⟩ := init_success_state h engine limits ex hok
  obtain ⟨lookups, hpol, _, htrace⟩ := init_trace_of_hook_call h engine limits ex bound hcall
  rw [htrace, policyAnswers_append, hpol]
  rfl

/-- C12: for an operator whose clearing policy answers `false`, after a successful `init` no
output table is cached (`m_tmpOutputTable` is `NULL`), so `execute_pull` on that executor
clears no table, and the part of `clearOutputTable_pull` for the own node returns without
clearing a table. -/
theorem init_caches_no_table_without_clearing (h : Hooks σ Tuple Params Limits)
    (engine : VoltDBEngine) (limits : Limits) (ex : AbstractExecutor σ)
    (hpolicy : ∀ s, (h.needsOutputTableClear s).1 = false)
    (hok : (ex.init h engine limits).result = .returned true) :
    (ex.init h engine limits).exec.m_tmpOutputTable = none
      ∧ (∀ (params : Params) (fuel : Nat),
          clearedTables ((ex.init h engine limits).exec.execute_pull h params fuel).trace = [])
      ∧ (clearOwnOutputTable h (ex.init h engine limits).exec).result = .returned true
      ∧ bulkClearedTables (clearOwnOutputTable h (ex.init h engine limits).exec).trace
          = [] := by
  obtain ⟨bound, n, s, _, _, hexec⟩ := init_success_state h engine limits ex hok
  have hnone : (ex.init h engine limits).exec.m_tmpOutputTable = none := by
    rw [hexec]; simp [hpolicy]
  refine ⟨hnone, ?_, ?_, ?_⟩
  · intro params fuel
    rw [execute_pull_clearedTables, hnone]
    rfl
  · rw [clearOwnOutputTable_skipped h _ (hpolicy _)]
  · rw [clearOwnOutputTable_skipped h _ (hpolicy _)]
    rfl

/-- C12 on the scan over `T` run by an operator that is never cleared. -/
theorem init_caches_no_table_without_clearing_witness :
    ((freshExecutor (scanNode "T")).init passThroughHooks sampleEngine
        ()).exec.m_tmpOutputTable = none
      ∧ (∀ (params : Unit) (fuel : Nat),
          clearedTables (((freshExecutor (scanNode "T")).init passThroughHooks sampleEngine
            ()).exec.execute_pull passThroughHooks params fuel).trace = [])
      ∧ (clearOwnOutputTable passThroughHooks
          ((freshExecutor (scanNode "T")).init passThroughHooks sampleEngine ()).exec).result
          = .returned true
      ∧ bulkClearedTables (clearOwnOutputTable passThroughHooks
          ((freshExecutor (scanNode "T")).init passThroughHooks sampleEngine ()).exec).trace
          = [] :=
  init_caches_no_table_without_clearing passThroughHooks sampleEngine ()
    (freshExecutor (scanNode "T")) (fun _ => rfl) (by decide)

/-- C13 (as stated, refuted): the late-policy operator is initialised with success and the
cached flag `false`, yet `clearOutputTable_pull` on it asks the policy again, gets `true`, and
bulk-clears the output table of the node. -/
theorem clearOutputTable_pull_ignores_cached_flag :
    (lateExecutor.init latePolicyHooks sampleEngine ()).result = .returned true
      ∧ (lateExecutor.init latePolicyHooks sampleEngine
          ()).exec.needs_outputtable_clear_cached = false
      ∧ (clearOutputTable_pull ()
          (ExecutorTree.mk latePolicyHooks
            (lateExecutor.init latePolicyHooks sampleEngine ()).exec [])).trace
          = [(1, Event.needsOutputTableClear true), (1, Event.deleteAllTuples ⟨100, true⟩)] := by
  refine ⟨by decide, by decide, rfl⟩

/-- C13 (amended): on every executor tree in which each node whose policy answers `true` has
an output table, `clearOutputTable_pull` on the root returns `true` and its log is the
clearing steps of the nodes in post-order: every node is handled exactly once, after all the
nodes below it, by one evaluation of its policy followed by a bulk clear of its output table
exactly when that evaluation answers `true`. -/
theorem clearOutputTable_pull_traversal (params : Params)
    (t : ExecutorTree σ Tuple Params Limits)
    (hassert : ∀ n ∈ postOrder t, (n.1.needsOutputTableClear n.2.derived).1 = true →
      n.2.m_abstractNode.getOutputTable ≠ none) :
    (clearOutputTable_pull params t).result = .returned true
      ∧ (clearOutputTable_pull params t).trace = (postOrder t).flatMap clearingStep
      ∧ ((clearOutputTable_pull params t).trace.filter
            (fun e => match e.2 with
              | Event.needsOutputTableClear _ => true
              | _ => false)).map Prod.fst
          = (postOrder t).map (fun n => n.2.m_abstractNode.getPlanNodeId) := by
  have hmain := clearOutputTable_pull_postOrder params t hassert
  refine ⟨hmain.1, hmain.2, ?_⟩
  rw [hmain.2]
  generalize postOrder t = nodes
  induction nodes with
  | nil => rfl
  | cons n rest ih =>
    rw [List.flatMap_cons, List.filter_append, List.map_append, ih]
    cases hp : (n.1.needsOutputTableClear n.2.derived).1 <;>
      cases ho : n.2.m_abstractNode.getOutputTable <;>
        simp [clearingStep, hp, ho]

/-- C13 (amended) on the join over two scans, the second of which is never cleared: the
scans are handled before the join, and the tables 10 and 102 are cleared. -/
theorem clearOutputTable_pull_traversal_witness :
    (clearOutputTable_pull () sampleTree).result = .returned true
      ∧ (clearOutputTable_pull () sampleTree).trace
          = [(1, Event.needsOutputTableClear true), (1, Event.deleteAllTuples outputA),
             (2, Event.needsOutputTableClear false),
             (3, Event.needsOutputTableClear true), (3, Event.deleteAllTuples ⟨102, true⟩)] :=
  ⟨(clearOutputTable_pull_traversal () sampleTree (by
      intro n hn _
      simp [sampleTree, postOrder, postOrderList] at hn
      rcases hn with rfl | rfl | rfl <;> simp [PlanNode.getOutputTable])).1,
    (clearOutputTable_pull_traversal () sampleTree (by
      intro n hn _
      simp [sampleTree, postOrder, postOrderList] at hn
      rcases hn with rfl | rfl | rfl <;> simp [PlanNode.getOutputTable])).2.1⟩

/-- C14 (as stated, refuted): on the scan over `T`, the operator whose `p_init` returns
`false` has its policy asked all the same, before `p_init` is called; and the late-policy
operator gets the cached flag `false`, the answer before `p_init`, although its policy
answers `true` in the state `p_init` leaves. -/
theorem init_asks_policy_even_when_p_init_fails :
    ((freshExecutor (scanNode "T")).init decliningHooks sampleEngine ()).result
        = .returned false
      ∧ ((freshExecutor (scanNode "T")).init decliningHooks sampleEngine ()).trace
          = [Event.getTable "T", Event.needsOutputTableClear true,
              Event.p_init ((scanNode "T").setTargetTable tableT)]
      ∧ (lateExecutor.init latePolicyHooks sampleEngine
          ()).exec.needs_outputtable_clear_cached = false
      ∧ (latePolicyHooks.needsOutputTableClear
          (lateExecutor.init latePolicyHooks sampleEngine ()).exec.derived).1 = true := by
  refine ⟨by decide, rfl, by decide, by decide⟩

/-- C14 (amended): in every run of `init` the clearing policy is asked exactly as often as
`p_init` is called. When `p_init` is called, the policy has been asked just before that
call, in the state before `p_init`, and the flag cached on the executor is that answer
whatever `p_init` then does. When `p_init` is not called, the policy is not asked and the
cached flag and table keep their values. The cached output table is written only once
`p_init` has returned `true`: it keeps its value in every run that does not return success,
and in a successful run it is the `TempTable` cast of the node's output table if the flag is
`true` and `NULL` if it is `false`. -/
theorem init_asks_policy_before_p_init (h : Hooks σ Tuple Params Limits)
    (engine : VoltDBEngine) (limits : Limits) (ex : AbstractExecutor σ) :
    (policyAnswers (ex.init h engine limits).trace).length
        = (initHookCalls (ex.init h engine limits).trace).length
      ∧ (∀ bound : PlanNode, initHookCalls (ex.init h engine limits).trace = [bound] →
          (∃ lookups : List (Event Tuple),
              policyAnswers lookups = [] ∧ initHookCalls lookups = []
                ∧ (ex.init h engine limits).trace
                    = lookups
                      ++ [Event.needsOutputTableClear (h.needsOutputTableClear ex.derived).1,
                          Event.p_init bound])
            ∧ policyAnswers (ex.init h engine limits).trace
                = [(h.needsOutputTableClear ex.derived).1]
            ∧ (ex.init h engine limits).exec.needs_outputtable_clear_cached
                = (h.needsOutputTableClear ex.derived).1)
      ∧ (initHookCalls (ex.init h engine limits).trace = [] →
          policyAnswers (ex.init h engine limits).trace = []
            ∧ (ex.init h engine limits).exec.needs_outputtable_clear_cached
                = ex.needs_outputtable_clear_cached
            ∧ (ex.init h engine limits).exec.m_tmpOutputTable = ex.m_tmpOutputTable)
      ∧ ((ex.init h engine limits).result ≠ .returned true →
          (ex.init h engine limits).exec.m_tmpOutputTable = ex.m_tmpOutputTable)
      ∧ ((ex.init h engine limits).result = .returned true →
          (ex.init h engine limits).exec.m_tmpOutputTable
            = if (h.needsOutputTableClear ex.derived).1 then
                dynamic_cast_TempTable
                  (ex.init h engine limits).exec.m_abstractNode.getOutputTable
              else none) := by
  have hcount := (init_policyAnswers_length h engine limits ex).1
  have hkeep : (ex.init h engine limits).result ≠ .returned true →
      (ex.init h engine limits).exec.m_tmpOutputTable = ex.m_tmpOutputTable := by
    intro hne
    cases hg : gatherInputTables ex.m_abstractNode.getChildren [] with
    | none => rw [init_of_unbound_child h engine limits ex hg]
    | some ins =>
      cases hres : @resolveTargetTable Tuple engine (ex.m_abstractNode.setInputTables ins) with
      | mk o tr =>
        cases o with
        | none => rw [init_of_unresolved_target h engine limits ex ins tr hg hres]
        | some node2 =>
          have hinit := init_of_resolved_target h engine limits ex ins node2 tr hg hres
          rw [hinit] at hne ⊢
          cases hp : h.p_init node2 limits (h.needsOutputTableClear ex.derived).2 with
          | returned ok n s =>
            cases ok
            · rw [initOperator_declined h limits ex node2 tr n s hp]
            · rw [initOperator_accepted h limits ex node2 tr n s hp] at hne
              exact absurd rfl hne
          | raised f n s => rw [initOperator_raised h limits ex node2 tr f n s hp]
  refine ⟨hcount, ?_, ?_, hkeep, ?_⟩
  · intro bound hcall
    obtain ⟨lookups, hpol, hhook, htrace⟩ :=
      init_trace_of_hook_call h engine limits ex bound hcall
    refine ⟨⟨lookups, hpol, hhook, htrace⟩, ?_, ?_⟩
    · rw [htrace, policyAnswers_append, hpol]
      rfl
    · obtain ⟨ins, tr, _, _, hinit⟩ := init_of_hook_call h engine limits ex bound hcall
      rw [hinit]
      cases hp : h.p_init bound limits (h.needsOutputTableClear ex.derived).2 with
      | returned ok n s =>
        cases ok
        · rw [initOperator_declined h limits ex bound tr n s hp]
        · rw [initOperator_accepted h limits ex bound tr n s hp]
      | raised f n s => rw [initOperator_raised h limits ex bound tr f n s hp]
  · intro hnocall
    have hnopol : policyAnswers (ex.init h engine limits).trace = [] := by
      rw [hnocall] at hcount
      exact List.length_eq_zero.1 hcount
    refine ⟨hnopol, ?_, ?_⟩
    · cases hg : gatherInputTables ex.m_abstractNode.getChildren [] with
      | none => rw [init_of_unbound_child h engine limits ex hg]
      | some ins =>
        cases hres : @resolveTargetTable Tuple engine
            (ex.m_abstractNode.setInputTables ins) with
        | mk o tr =>
          cases o with
          | none => rw [init_of_unresolved_target h engine limits ex ins tr hg hres]
          | some node2 =>
            rw [init_hook_calls_of_resolved h engine limits ex ins node2 tr hg hres]
              at hnocall
            cases hnocall
    · apply hkeep
      intro hok
      obtain ⟨bound, _, _, hcall, _, _⟩ := init_success_state h engine limits ex hok
      rw [hnocall] at hcall
      cases hcall
  · intro hok
    obtain ⟨bound, n, s, _, _, hexec⟩ := init_success_state h engine limits ex hok
    rw [hexec]

/-- C14 (amended) on an executor that caches the table 55 and the flag `false` before the
call: with an operator whose `p_init` returns `false` the policy is asked once, before
`p_init`, the flag becomes its answer and the table 55 stays cached; on a scan whose table
the engine does not have, the policy is not asked at all. -/
theorem init_asks_policy_before_p_init_witness :
    ((staleExecutor.init decliningHooks sampleEngine ()).trace
        = [Event.getTable "T", Event.needsOutputTableClear true,
            Event.p_init ((scanNode "T").setTargetTable tableT)]
      ∧ (staleExecutor.init decliningHooks sampleEngine
          ()).exec.needs_outputtable_clear_cached = true
      ∧ (staleExecutor.init decliningHooks sampleEngine ()).exec.m_tmpOutputTable
          = some ⟨55, true⟩)
    ∧ policyAnswers
        ((freshExecutor (scanNode "missing")).init decliningHooks sampleEngine ()).trace
        = [] :=
  ⟨⟨rfl,
      ((init_asks_policy_before_p_init decliningHooks sampleEngine () staleExecutor).2.1
        ((scanNode "T").setTargetTable tableT) rfl).2.2,
      (init_asks_policy_before_p_init decliningHooks sampleEngine () staleExecutor).2.2.2.1
        (by decide)⟩,
    ((init_asks_policy_before_p_init decliningHooks sampleEngine ()
      (freshExecutor (scanNode "missing"))).2.2.1 rfl).1⟩

/-- C15 (as stated, refuted): the operator whose `p_init` puts the persistent table `tableT`
on the node is initialised with success and a policy that answers `true`, yet no table is
cached for clearing and `execute_pull` clears nothing. -/
theorem init_caches_no_persistent_output :
    ((freshExecutor (scanNode "T")).init persistentOutputHooks sampleEngine ()).result
        = .returned true
      ∧ (persistentOutputHooks.needsOutputTableClear ()).1 = true
      ∧ ((freshExecutor (scanNode "T")).init persistentOutputHooks sampleEngine
          ()).exec.m_abstractNode.getOutputTable = some tableT
      ∧ ((freshExecutor (scanNode "T")).init persistentOutputHooks sampleEngine
          ()).exec.m_tmpOutputTable = none
      ∧ clearedTables (((freshExecutor (scanNode "T")).init persistentOutputHooks sampleEngine
          ()).exec.execute_pull persistentOutputHooks () 3).trace = [] := by
  refine ⟨by decide, rfl, by decide, by decide, by decide⟩

/-- C15 (amended): when the policy answers `true` and `init` returns success, the reference
cached for clearing is the `dynamic_cast<TempTable*>` of the node's output table as it stands
after `p_init`: that table if it is a `TempTable`, nothing otherwise; and the next
`execute_pull` bulk-clears exactly what is cached. -/
theorem init_caches_temp_output (h : Hooks σ Tuple Params Limits)
    (engine : VoltDBEngine) (limits : Limits) (ex : AbstractExecutor σ)
    (hpolicy : (h.needsOutputTableClear ex.derived).1 = true)
    (hok : (ex.init h engine limits).result = .returned true) :
    (ex.init h engine limits).exec.m_tmpOutputTable
        = dynamic_cast_TempTable (ex.init h engine limits).exec.m_abstractNode.getOutputTable
      ∧ (∀ t, (ex.init h engine limits).exec.m_abstractNode.getOutputTable = some t →
          t.isTempTable = true → (ex.init h engine limits).exec.m_tmpOutputTable = some t)
      ∧ (∀ t, (ex.init h engine limits).exec.m_abstractNode.getOutputTable = some t →
          t.isTempTable = false → (ex.init h engine limits).exec.m_tmpOutputTable = none)
      ∧ (∀ (params : Params) (fuel : Nat),
          clearedTables ((ex.init h engine limits).exec.execute_pull h params fuel).trace
            = (dynamic_cast_TempTable
                (ex.init h engine limits).exec.m_abstractNode.getOutputTable).toList) := by
  obtain ⟨bound, n, s, _, _, hexec⟩ := init_success_state h engine limits ex hok
  have hcached : (ex.init h engine limits).exec.m_tmpOutputTable
      = dynamic_cast_TempTable (ex.init h engine limits).exec.m_abstractNode.getOutputTable := by
    rw [hexec]; simp [hpolicy]
  refine ⟨hcached, ?_, ?_, ?_⟩
  · intro t ht htemp
    rw [hcached, ht]
    simp [dynamic_cast_TempTable, htemp]
  · intro t ht htemp
    rw [hcached, ht]
    simp [dynamic_cast_TempTable, htemp]
  · intro params fuel
    rw [execute_pull_clearedTables, hcached]

/-- C15 (amended) on the scan over `T` whose operator creates the transient table 100. -/
theorem init_caches_temp_output_witness :
    ((freshExecutor (scanNode "T")).init materializingHooks sampleEngine
        ()).exec.m_tmpOutputTable = some ⟨100, true⟩
      ∧ clearedTables (((freshExecutor (scanNode "T")).init materializingHooks sampleEngine
          ()).exec.execute_pull materializingHooks () 3).trace
          = (dynamic_cast_TempTable
              ((freshExecutor (scanNode "T")).init materializingHooks sampleEngine
                ()).exec.m_abstractNode.getOutputTable).toList :=
  ⟨(init_caches_temp_output materializingHooks sampleEngine () (freshExecutor (scanNode "T"))
      rfl (by decide)).2.1 ⟨100, true⟩ rfl rfl,
    (init_caches_temp_output materializingHooks sampleEngine () (freshExecutor (scanNode "T"))
      rfl (by decide)).2.2.2 () 3⟩

/-- C16 (as stated, refuted): for a node whose `debug()` text is 200 characters long, the
message of the `SerializableEEException` that `init` throws has at most 127 characters and
does not contain the text. -/
theorem init_failure_message_cuts_long_description :
    ((freshExecutor longDebugNode).init (throwingHooks ⟨"std::runtime_error", true⟩)
        sampleEngine ()).result
        = .threw (.serializableEEException .VOLT_EE_EXCEPTION_TYPE_EEEXCEPTION
            (initFailureMessage longDebugNode.debug))
      ∧ longDebugNode.debug.length = 200
      ∧ (initFailureMessage longDebugNode.debug).length ≤ 127
      ∧ ¬ longDebugNode.debug.data <:+: (initFailureMessage longDebugNode.debug).data := by
  have hlen : longDebugNode.debug.length = 200 := by
    simp only [longDebugNode, PlanNode.debug, String.length, List.length_replicate]
  refine ⟨rfl, hlen, initFailureMessage_length_le _, ?_⟩
  intro hinfix
  have h1 := hinfix.length_le
  have h2 := initFailureMessage_length_le longDebugNode.debug
  simp only [String.length] at hlen h2
  omega

/-- C16 (amended): when `p_init` throws a `std::exception` while the node's `debug()` text is
`d`, the message of the `SerializableEEException` that `init` throws is the text
`The Executor failed to initialize PlanNode '<d>'`, with `d` read up to its first NUL, cut
to the 127 characters the 128-byte buffer holds. It is that text in full, and so contains
`d` in full, whenever `d` has no NUL and at most 82 characters. -/
theorem init_failure_message (h : Hooks σ Tuple Params Limits)
    (engine : VoltDBEngine) (limits : Limits) (ex : AbstractExecutor σ) (bound : PlanNode)
    (fault : Fault) (n : PlanNode) (s : σ)
    (hcall : initHookCalls (ex.init h engine limits).trace = [bound])
    (hraise : h.p_init bound limits (h.needsOutputTableClear ex.derived).2
      = .raised fault n s)
    (hstd : fault.isStdException = true) :
    (ex.init h engine limits).result
        = .threw (.serializableEEException .VOLT_EE_EXCEPTION_TYPE_EEEXCEPTION
            (initFailureMessage n.debug))
      ∧ (initFailureMessage n.debug).data
          = ((("The Executor failed to initialize PlanNode ".data ++ [Char.ofNat 39])
              ++ c_str n.debug ++ [Char.ofNat 39]).take 127)
      ∧ (initFailureMessage n.debug).length ≤ 127
      ∧ ((∀ c ∈ n.debug.data, c ≠ Char.ofNat 0) → n.debug.length ≤ 82 →
          (initFailureMessage n.debug).data = formattedInitFailure n.debug
            ∧ n.debug.data <:+: (initFailureMessage n.debug).data) := by
  obtain ⟨ins, tr, _, _, hinit⟩ := init_of_hook_call h engine limits ex bound hcall
  refine ⟨?_, rfl, initFailureMessage_length_le _, ?_⟩
  · rw [hinit, initOperator_raised h limits ex bound tr fault n s hraise]
    simp [hstd]
  · intro hnul hlen
    have hfull := initFailureMessage_of_short n.debug hnul hlen
    refine ⟨hfull, ?_⟩
    rw [hfull]
    exact ⟨"The Executor failed to initialize PlanNode ".data ++ [Char.ofNat 39],
      [Char.ofNat 39], rfl⟩

/-- C16 (amended) on the join node, whose `debug()` text is `join`. -/
theorem init_failure_message_witness :
    ((freshExecutor joinNode).init (throwingHooks ⟨"std::runtime_error", true⟩) sampleEngine
        ()).result
        = .threw (.serializableEEException .VOLT_EE_EXCEPTION_TYPE_EEEXCEPTION
            (initFailureMessage "join"))
      ∧ (initFailureMessage "join").data = formattedInitFailure "join"
      ∧ "join".data <:+: (initFailureMessage "join").data :=
  ⟨(init_failure_message (throwingHooks ⟨"std::runtime_error", true⟩) sampleEngine ()
      (freshExecutor joinNode) ((freshExecutor joinNode).m_abstractNode.setInputTables
        [outputA, outputB]) ⟨"std::runtime_error", true⟩
      ((freshExecutor joinNode).m_abstractNode.setInputTables [outputA, outputB]) ()
      rfl rfl rfl).1,
    (init_failure_message (throwingHooks ⟨"std::runtime_error", true⟩) sampleEngine ()
      (freshExecutor joinNode) ((freshExecutor joinNode).m_abstractNode.setInputTables
        [outputA, outputB]) ⟨"std::runtime_error", true⟩
      ((freshExecutor joinNode).m_abstractNode.setInputTables [outputA, outputB]) ()
      rfl rfl rfl).2.2.2 (by decide) (by decide)⟩

/-- C17 (as stated, refuted): the operator whose `p_init` succeeds without creating an output
table, and whose policy answers `true`, is initialised with success on the scan over `T`;
`clearOutputTable_pull` on that executor then fails its assertion. -/
theorem clear_assertion_fails_after_successful_init :
    ((freshExecutor (scanNode "T")).init bareHooks sampleEngine ()).result = .returned true
      ∧ (clearOwnOutputTable bareHooks
          ((freshExecutor (scanNode "T")).init bareHooks sampleEngine ()).exec).result
          = .assertionFailed
      ∧ (clearOutputTable_pull ()
          (ExecutorTree.mk bareHooks
            ((freshExecutor (scanNode "T")).init bareHooks sampleEngine ()).exec [])).result
          = .assertionFailed := by
  refine ⟨by decide, by decide, by decide⟩

/-- C17 (amended): for an operator whose `p_init` always leaves an output table on the node,
after a successful `init` the assertion in `clearOutputTable_pull` on the executor's own node
does not fail, neither right after `init` nor after any run of `execute_pull`. In general
the assertion fails exactly when the policy answers `true` and the node has no output
table. -/
theorem clear_assertion_holds_when_p_init_creates_output (h : Hooks σ Tuple Params Limits)
    (engine : VoltDBEngine) (limits : Limits) (ex : AbstractExecutor σ)
    (hhook : ∀ n s, (h.p_init n limits s).node.getOutputTable ≠ none)
    (hok : (ex.init h engine limits).result = .returned true) :
    (clearOwnOutputTable h (ex.init h engine limits).exec).result = .returned true
      ∧ (∀ (params : Params) (fuel : Nat),
          (clearOwnOutputTable h
            ((ex.init h engine limits).exec.execute_pull h params fuel).exec).result
            = .returned true)
      ∧ (∀ ex' : AbstractExecutor σ,
          (clearOwnOutputTable h ex').result = .assertionFailed
            ↔ (h.needsOutputTableClear ex'.derived).1 = true
              ∧ ex'.m_abstractNode.getOutputTable = none) := by
  have hgeneral : ∀ ex' : AbstractExecutor σ,
      (clearOwnOutputTable h ex').result = .assertionFailed
        ↔ (h.needsOutputTableClear ex'.derived).1 = true
          ∧ ex'.m_abstractNode.getOutputTable = none := by
    intro ex'
    cases hp : (h.needsOutputTableClear ex'.derived).1 with
    | false => rw [clearOwnOutputTable_skipped h ex' hp]; simp
    | true =>
      cases ho : ex'.m_abstractNode.getOutputTable with
      | none => rw [clearOwnOutputTable_asserted h ex' hp ho]; simp
      | some t => rw [clearOwnOutputTable_cleared h ex' t hp ho]; simp
  have hholds : ∀ ex' : AbstractExecutor σ, ex'.m_abstractNode.getOutputTable ≠ none →
      (clearOwnOutputTable h ex').result = .returned true := by
    intro ex' hout
    cases hp : (h.needsOutputTableClear ex'.derived).1 with
    | false => rw [clearOwnOutputTable_skipped h ex' hp]
    | true =>
      cases ho : ex'.m_abstractNode.getOutputTable with
      | none => exact absurd ho hout
      | some t => rw [clearOwnOutputTable_cleared h ex' t hp ho]
  obtain ⟨ins, node2, tr, _, _, hinit⟩ := init_of_success h engine limits ex hok
  have hout : (ex.init h engine limits).exec.m_abstractNode.getOutputTable ≠ none := by
    rw [hinit, initOperator_node]
    exact hhook _ _
  refine ⟨hholds _ hout, ?_, hgeneral⟩
  intro params fuel
  apply hholds
  rw [(execute_pull_frame h params fuel _).1]
  exact hout

/-- C17 (amended) on the scan over `T` whose operator creates the transient table 100. -/
theorem clear_assertion_holds_when_p_init_creates_output_witness :
    (clearOwnOutputTable materializingHooks
        ((freshExecutor (scanNode "T")).init materializingHooks sampleEngine ()).exec).result
      = .returned true :=
  (clear_assertion_holds_when_p_init_creates_output materializingHooks sampleEngine ()
    (freshExecutor (scanNode "T")) (fun n _ => by cases n; simp [InitHookResult.node,
      materializingHooks, PlanNode.setOutputTable, PlanNode.getOutputTable])
    (by decide)).1

/-- C18: when some child has no output table, `init` returns `false` and leaves the executor
as it found it: the node with its input-table list and target table, the cached flag and the
cached output table. In contrast, when the children all have output tables and `init` fails
at the target-table lookup, the node carries the children's output tables as its input-table
list (the other fields being untouched), and so does the node handed to `p_init` when `init`
gets that far. -/
theorem init_failure_frame (h : Hooks σ Tuple Params Limits) (engine : VoltDBEngine)
    (limits : Limits) (ex : AbstractExecutor σ) :
    ((∃ c ∈ ex.m_abstractNode.getChildren, c.getOutputTable = none) →
        (ex.init h engine limits).result = .returned false
          ∧ (ex.init h engine limits).exec = ex)
      ∧ (∀ ins : List Table,
          ins.map some = ex.m_abstractNode.getChildren.map PlanNode.getOutputTable →
          (ex.init h engine limits).result = .returned false →
          initHookCalls (ex.init h engine limits).trace = [] →
            (ex.init h engine limits).exec
              = ⟨ex.m_abstractNode.setInputTables ins, ex.m_tmpOutputTable,
                  ex.needs_outputtable_clear_cached, ex.derived⟩)
      ∧ (∀ bound : PlanNode, initHookCalls (ex.init h engine limits).trace = [bound] →
          bound.getInputTables.map some
            = ex.m_abstractNode.getChildren.map PlanNode.getOutputTable) := by
  refine ⟨?_, ?_, ?_⟩
  · intro hchild
    have hg := (gatherInputTables_eq_none_iff ex.m_abstractNode.getChildren []).2 hchild
    rw [init_of_unbound_child h engine limits ex hg]
    exact ⟨rfl, rfl⟩
  · intro ins hins _ hnocall
    cases hg : gatherInputTables ex.m_abstractNode.getChildren [] with
    | none =>
      obtain ⟨c, hc, hnone⟩ := (gatherInputTables_eq_none_iff _ []).1 hg
      have hmem : c.getOutputTable ∈ ins.map some := by
        rw [hins]; exact List.mem_map_of_mem _ hc
      rw [hnone] at hmem
      simp at hmem
    | some ins' =>
      have hsame := gatherInputTables_unique _ ins ins' hg hins
      subst hsame
      cases hres : @resolveTargetTable Tuple engine (ex.m_abstractNode.setInputTables ins') with
      | mk o tr =>
        cases o with
        | none => rw [init_of_unresolved_target h engine limits ex ins' tr hg hres]
        | some node2 =>
          rw [init_hook_calls_of_resolved h engine limits ex ins' node2 tr hg hres] at hnocall
          cases hnocall
  · intro bound hcall
    obtain ⟨ins, tr, hg, hres, _⟩ := init_of_hook_call h engine limits ex bound hcall
    rw [resolveTargetTable_inputTables engine _ bound (by rw [hres]),
      PlanNode.getInputTables_setInputTables]
    simpa using gatherInputTables_some _ [] ins hg

/-- C18 on an executor that already caches a table: with an unset child output nothing
changes; with the children bound and the target table missing, only the input-table list is
written. -/
theorem init_failure_frame_witness :
    (((⟨scanOverUnboundChild, some ⟨55, true⟩, true, ()⟩ : AbstractExecutor Unit).init
          materializingHooks sampleEngine ()).result = .returned false
        ∧ ((⟨scanOverUnboundChild, some ⟨55, true⟩, true, ()⟩ : AbstractExecutor Unit).init
          materializingHooks sampleEngine ()).exec
          = ⟨scanOverUnboundChild, some ⟨55, true⟩, true, ()⟩)
      ∧ ((freshExecutor (scanNode "missing")).init materializingHooks sampleEngine ()).exec
          = ⟨(scanNode "missing").setInputTables [], none, false, ()⟩ :=
  ⟨(init_failure_frame materializingHooks sampleEngine ()
      (⟨scanOverUnboundChild, some ⟨55, true⟩, true, ()⟩ : AbstractExecutor Unit)).1
      ⟨PlanNode.mk 1 .other [] none [] "child", List.Mem.head _, rfl⟩,
    (init_failure_frame materializingHooks sampleEngine ()
      (freshExecutor (scanNode "missing"))).2.1 [] rfl (by decide) rfl⟩

/-- C19: when `p_init` returns `false`, `init` returns `false` (it throws nothing); the
cached flag has been assigned the policy's answer, and the cached output table is the one
the executor had before the call. -/
theorem init_when_p_init_declines (h : Hooks σ Tuple Params Limits) (engine : VoltDBEngine)
    (limits : Limits) (ex : AbstractExecutor σ) (bound n : PlanNode) (s : σ)
    (hcall : initHookCalls (ex.init h engine limits).trace = [bound])
    (hdeclined : h.p_init bound limits (h.needsOutputTableClear ex.derived).2
      = .returned false n s) :
    (ex.init h engine limits).result = .returned false
      ∧ (ex.init h engine limits).exec.needs_outputtable_clear_cached
          = (h.needsOutputTableClear ex.derived).1
      ∧ (ex.init h engine limits).exec.m_tmpOutputTable = ex.m_tmpOutputTable
      ∧ (ex.init h engine limits).exec.m_abstractNode = n := by
  obtain ⟨ins, tr, _, _, hinit⟩ := init_of_hook_call h engine limits ex bound hcall
  rw [hinit, initOperator_declined h limits ex bound tr n s hdeclined]
  exact ⟨rfl, rfl, rfl, rfl⟩

/-- C19 on an executor that caches the table 55 and the flag `false` before the call: the
flag becomes `true`, the table 55 stays cached although the node has no output table. -/
theorem init_when_p_init_declines_witness :
    (staleExecutor.init decliningHooks sampleEngine ()).result = .returned false
      ∧ (staleExecutor.init decliningHooks sampleEngine
          ()).exec.needs_outputtable_clear_cached = true
      ∧ (staleExecutor.init decliningHooks sampleEngine ()).exec.m_tmpOutputTable
          = some ⟨55, true⟩
      ∧ (staleExecutor.init decliningHooks sampleEngine ()).exec.m_abstractNode
          = (scanNode "T").setTargetTable tableT :=
  init_when_p_init_declines decliningHooks sampleEngine () staleExecutor
    ((scanNode "T").setTargetTable tableT) ((scanNode "T").setTargetTable tableT) () rfl rfl

/-- C20: when the pre-execution hook returns failure, `execute_pull` returns `false`; its log
is the bulk clear of the cached output table (if one is cached) followed by the
pre-execution call, so the production, insert-output and post-execution hooks are not
called, and the cached table has been cleared exactly once, before the pre-execution hook
ran. -/
theorem execute_pull_when_pre_fails (h : Hooks σ Tuple Params Limits) (params : Params)
    (fuel : Nat) (ex : AbstractExecutor σ)
    (hpre : (h.p_pre_execute_pull params ex.derived).1 = false) :
    (ex.execute_pull h params fuel).result = some false
      ∧ (ex.execute_pull h params fuel).trace
          = (match ex.m_tmpOutputTable with
              | some t => [Event.deleteAllTuplesNonVirtual t]
              | none => []) ++ [Event.p_pre_execute_pull false]
      ∧ producedAnswers (ex.execute_pull h params fuel).trace = []
      ∧ insertedTuples (ex.execute_pull h params fuel).trace = []
      ∧ postAnswers (ex.execute_pull h params fuel).trace = []
      ∧ clearedTables (ex.execute_pull h params fuel).trace = ex.m_tmpOutputTable.toList := by
  have htrace : (ex.execute_pull h params fuel).trace
      = (match ex.m_tmpOutputTable with
          | some t => [Event.deleteAllTuplesNonVirtual t]
          | none => []) ++ [Event.p_pre_execute_pull false] := by
    rw [execute_pull_trace]
    simp [hpre]
  refine ⟨?_, htrace, ?_, ?_, ?_, execute_pull_clearedTables h params fuel ex⟩
  · simp [AbstractExecutor.execute_pull, hpre]
  · rw [htrace]; cases ex.m_tmpOutputTable <;> rfl
  · rw [htrace]; cases ex.m_tmpOutputTable <;> rfl
  · rw [htrace]; cases ex.m_tmpOutputTable <;> rfl

/-- C20 on an executor that caches the table 55: the table is cleared once, then the
pre-execution hook fails and nothing else is called. -/
theorem execute_pull_when_pre_fails_witness :
    (staleExecutor.execute_pull failingPreHooks () 5).result = some false
      ∧ (staleExecutor.execute_pull failingPreHooks () 5).trace
          = [Event.deleteAllTuplesNonVirtual ⟨55, true⟩, Event.p_pre_execute_pull false]
      ∧ producedAnswers (staleExecutor.execute_pull failingPreHooks () 5).trace = []
      ∧ insertedTuples (staleExecutor.execute_pull failingPreHooks () 5).trace = []
      ∧ postAnswers (staleExecutor.execute_pull failingPreHooks () 5).trace = []
      ∧ clearedTables (staleExecutor.execute_pull failingPreHooks () 5).trace
          = [⟨55, true⟩] :=
  execute_pull_when_pre_fails failingPreHooks () 5 staleExecutor rfl

end Claims

end voltdb
